import Mathlib

/-!
Verification development for the sequence sampling and batching engine of the
deep-learning-dna repository (src/common/data.py).

Sequences are byte arrays, modelled as `List Nat`; an archive (one LMDB store
per biological sample) maps integer keys `0 .. len-1` to sequences and is
modelled as `List (List Nat)`.  The numpy random generator is an external
collaborator: it is modelled as a deterministic stream of rationals in `[0,1)`
together with a position, and each numpy primitive (`uniform`, `integers`,
`choice`) consumes values from the stream.  Machine floats are modelled as `ℚ`;
`int(...)` / `.astype(int)` truncate toward zero, modelled by `ratTrunc`.
-/

/-- An archive: a keyed, read-only store of variable-length byte sequences
(key `k` is the position in the list, matching the decimal-string keys
`"0" .. "len-1"` of the LMDB stores). -/
abbrev Archive := List (List Nat)

/-- The numpy random generator, modelled as a deterministic stream of rationals
in `[0,1)` plus a current position.  A seeded `np.random.default_rng(seed)` is
a deterministic state machine; two generators with the same seed correspond to
two `RNG` values with the same `stream` and `pos`. -/
structure RNG where
  stream : Nat → ℚ
  pos : Nat

/-- Draw one value from the stream, advancing the position. -/
def RNG.next (r : RNG) : ℚ × RNG := (r.stream r.pos, ⟨r.stream, r.pos + 1⟩)

/-- A well-formed generator only produces values in `[0,1)`. -/
def RNG.Wf (r : RNG) : Prop := ∀ n, 0 ≤ r.stream n ∧ r.stream n < 1

/-- Python `int(...)` / numpy `.astype(int)` on a real value: truncation toward
zero. -/
def ratTrunc (q : ℚ) : Int := if 0 ≤ q then ⌊q⌋ else ⌈q⌉

/-- `rng.uniform()`: one sample from `Uniform[0,1)`. -/
def rngUniform (r : RNG) : ℚ × RNG := r.next

/-- `rng.integers(n)`: one uniform integer in `[0,n)`, modelled as consuming one
uniform value `u` and returning `⌊u·n⌋`. -/
def rngIntegers (n : Nat) (r : RNG) : Nat × RNG :=
  let p := r.next
  ((ratTrunc (p.1 * (n : ℚ))).toNat, p.2)

/-- Draw a row of `n` values with the drawing function `f`, threading the
generator state left to right (numpy fills arrays in row-major order). -/
def drawRow {α : Type} (f : RNG → α × RNG) : Nat → RNG → List α × RNG
  | 0, r => ([], r)
  | n + 1, r =>
    let p := f r
    let q := drawRow f n p.2
    (p.1 :: q.1, q.2)

/-- Draw a `rows × cols` matrix of values. -/
def drawMat {α : Type} (f : RNG → α × RNG) (rows cols : Nat) (r : RNG) :
    List (List α) × RNG :=
  drawRow (fun r2 => drawRow f cols r2) rows r

/-- Draw an `a × b × c` block of values. -/
def drawMat3 {α : Type} (f : RNG → α × RNG) (a b c : Nat) (r : RNG) :
    List (List (List α)) × RNG :=
  drawRow (fun r2 => drawMat f b c r2) a r

/-- Sampling without replacement from a pool: pick a uniform position in the
remaining pool, remove it, and recurse.  This is the deterministic model of
`rng.choice(pool, size, replace=False)` after its size check has passed. -/
def drawNoReplace : List Nat → Nat → RNG → List Nat × RNG
  | _, 0, r => ([], r)
  | pool, g + 1, r =>
    let p := r.next
    let idx := (ratTrunc (p.1 * (pool.length : ℚ))).toNat
    let q := drawNoReplace (pool.eraseIdx idx) g p.2
    (pool.getD idx 0 :: q.1, q.2)

/-- `rng.choice(np.arange(n), g, replace=False)`: numpy first checks
`g ≤ n` (raising `ValueError: Cannot take a larger sample than population`
otherwise), then draws `g` distinct values from `[0,n)`. -/
def rngChoice (n g : Nat) (r : RNG) : Option (List Nat) × RNG :=
  if g ≤ n then
    let q := drawNoReplace (List.range n) g r
    (some q.1, q.2)
  else (none, r)

/-- Thread an optionally-failing, state-consuming function over a list,
stopping at the first failure (a raised exception aborts the loop). -/
def mapListState {α β : Type} (f : α → RNG → Option β × RNG) :
    List α → RNG → Option (List β) × RNG
  | [], r => (some [], r)
  | x :: xs, r =>
    let p := f x r
    match p.1 with
    | none => (none, p.2)
    | some y =>
      let q := mapListState f xs p.2
      (q.1.map (fun ys => y :: ys), q.2)

/-- An indexed loop `for j in range(j0, j0+n)` whose body may fail and consumes
generator state. -/
def loopState {α : Type} (f : Nat → RNG → Option α × RNG) :
    Nat → Nat → RNG → Option (List α) × RNG
  | _, 0, r => (some [], r)
  | j, n + 1, r =>
    let p := f j r
    match p.1 with
    | none => (none, p.2)
    | some x =>
      let q := loopState f (j + 1) n p.2
      (q.1.map (fun xs => x :: xs), q.2)

/-- Map an optionally-failing function over a list (fail-fast, no state). -/
def optMap {α β : Type} (f : α → Option β) : List α → Option (List β)
  | [] => some []
  | x :: xs =>
    match f x with
    | none => none
    | some y => (optMap f xs).map (fun ys => y :: ys)

/-- `np.min` over a list of naturals (the caller guarantees nonemptiness; numpy
raises on an empty array). -/
def natMin : List Nat → Nat
  | [] => 0
  | x :: xs => xs.foldl Nat.min x

/-- Numpy/Python indexing of a sequence along its first axis by a possibly
negative integer: a negative index `i` addresses position `len + i`; anything
outside `[-len, len)` raises `IndexError`. -/
def npIndex {α : Type} (l : List α) (i : Int) : Option α :=
  if 0 ≤ i then l[i.toNat]?
  else if (l.length : Int) + i < 0 then none
  else l[((l.length : Int) + i).toNat]?

/-- One slice bound of a Python slice `l[a:b]`, clamped into `[0, len]`. -/
def pySliceIdx (len : Nat) (i : Int) : Nat :=
  if i < 0 then ((len : Int) + i).toNat else min i.toNat len

/-- Python slice `l[a:b]` (step 1): negative bounds wrap, and everything is
clamped; the result is the elements at positions `[a', b')`. -/
def pySlice {α : Type} (l : List α) (a b : Int) : List α :=
  (l.take (pySliceIdx l.length b)).drop (pySliceIdx l.length a)

/-- Assigning a 1-D array into a preallocated row of width `w`
(`batch[i] = arr`): an exact-width array is copied, a length-1 array is
broadcast across the row, and any other length raises a broadcast error. -/
def npBroadcastRow {α : Type} (w : Nat) (d : α) (xs : List α) : Option (List α) :=
  if xs.length = w then some xs
  else if xs.length = 1 then some (List.replicate w (xs.headD d))
  else none

/-! ## The k-mer encoder (`to_kmers`, from `DnaSequenceGenerator.__init__`) -/

/-- The kernel `5**np.arange(kmer)` = `[5^0, 5^1, ..., 5^(k-1)]`. -/
def kmer_kernel (k : Nat) : List Nat := (List.range k).map (fun i => 5 ^ i)

/-- The sums computed by `np.convolve(a, v, mode="valid")` for
`v.length ≤ a.length`: convolution reverses the kernel, so output position `j`
is `Σ_{t<|v|} a[j+t] · v[|v|-1-t]`. -/
def convolveValidAux (a v : List Nat) : List Nat :=
  (List.range (a.length + 1 - v.length)).map (fun j =>
    ((List.range v.length).map (fun t =>
      a.getD (j + t) 0 * v.getD (v.length - 1 - t) 0)).sum)

/-- `np.convolve(a, v, mode="valid")`: numpy swaps the arguments when the
second is longer, making convolution commutative. -/
def convolveValid (a v : List Nat) : List Nat :=
  if a.length < v.length then convolveValidAux v a else convolveValidAux a v

/-- The `to_kmers` closure selected in `DnaSequenceGenerator.__init__`:
`np.convolve(x, kmer_kernel, mode="valid")` when `kmer > 1`, the identity
otherwise. -/
def toKmersFn (k : Nat) (x : List Nat) : List Nat :=
  if 1 < k then convolveValid x (kmer_kernel k) else x

/-- `batch_to_kmers`: allocate a `(len(batch), W - k + 1)` result (a negative
width raises) and write `to_kmers(row)` into each row, which requires each
encoded row to fit the allocated width. -/
def batchToKmersAux (W k : Nat) (batch : List (List Nat)) : Option (List (List Nat)) :=
  if (W : Int) - (k : Int) + 1 < 0 then none
  else optMap (fun s => npBroadcastRow ((W : Int) - (k : Int) + 1).toNat 0 (toKmersFn k s)) batch

/-- Dot product of two lists of naturals (truncating at the shorter one). -/
def dotProd (a b : List Nat) : Nat := ((a.zip b).map (fun p => p.1 * p.2)).sum

/-- The descending weight vector `[5^(n-1), ..., 5^1, 5^0]`. -/
def pows : Nat → List Nat
  | 0 => []
  | n + 1 => 5 ^ n :: pows n

/-- The k-mer map as claim C1 words it: weight `5^t` applied to the `t`-th base
code of each length-`k` slice (ascending weights). -/
def kmerClaimEncode (k : Nat) (x : List Nat) : List Nat :=
  (List.range (x.length + 1 - k)).map (fun j =>
    ((List.range k).map (fun t => x.getD (j + t) 0 * 5 ^ t)).sum)

/-! ## DnaSequenceGenerator -/

/-- `DnaLabelType`: which labels accompany the feature batch. -/
inductive DnaLabelType
  | SampleIds
  | OneMer
  | KMer
deriving DecidableEq

/-- The value returned by `DnaSequenceGenerator.__getitem__`: the encoded
feature batch, optionally paired with the label tensor selected by the label
mode. -/
inductive SeqBatchOut
  | plain (features : List (List Nat))
  | sampleIds (features : List (List Nat)) (ids : List Nat)
  | oneMer (features : List (List Nat)) (bases : List (List Nat))
  | kMer (features target : List (List Nat))
deriving DecidableEq

/-- The state of a `DnaSequenceGenerator`: configuration, open archives,
(possibly balance-clamped) effective archive lengths, the RNG, and the
materialized per-epoch index tables built by `shuffle`. -/
structure DnaSequenceGenerator where
  samples : List Archive
  sample_lengths : List Nat
  num_samples : Nat
  sequence_length : Nat
  kmer : Nat
  augment : Bool
  batch_size : Nat
  batches_per_epoch : Nat
  balance : Bool
  labels : Option DnaLabelType
  rng : RNG
  sample_indices : List (List Nat)
  sequence_indices : List (List Nat)
  augment_offsets : List (List ℚ)

/-- `DnaSequenceGenerator.shuffle`: draw the `(batches_per_epoch, batch_size)`
table of archive indices, then the sequence-key table
`(sample_lengths[sample_indices] * rng.uniform(size=shape)).astype(int)`, then
(when augmenting) the table of augmentation fractions. -/
def DnaSequenceGenerator.shuffle (g : DnaSequenceGenerator) : DnaSequenceGenerator :=
  let p1 := drawMat (rngIntegers g.num_samples) g.batches_per_epoch g.batch_size g.rng
  let p2 := drawMat rngUniform g.batches_per_epoch g.batch_size p1.2
  let qi := List.zipWith
    (List.zipWith (fun s u => (ratTrunc ((g.sample_lengths.getD s 0 : ℚ) * u)).toNat))
    p1.1 p2.1
  let p3 :=
    if g.augment then drawMat rngUniform g.batches_per_epoch g.batch_size p2.2
    else (g.augment_offsets, p2.2)
  { g with rng := p3.2, sample_indices := p1.1, sequence_indices := qi,
           augment_offsets := p3.1 }

/-- `DnaSequenceGenerator.__init__`: store the configuration, clamp every
effective length to `np.min(sample_lengths)` when balancing, and build the
first epoch's index table by calling `shuffle`. -/
def DnaSequenceGenerator.init (samples : List Archive)
    (sequence_length kmer batch_size batches_per_epoch : Nat)
    (augment balance : Bool) (labels : Option DnaLabelType) (rng : RNG) :
    DnaSequenceGenerator :=
  let lengths0 := samples.map List.length
  DnaSequenceGenerator.shuffle
    { samples := samples
      sample_lengths :=
        if balance then List.replicate lengths0.length (natMin lengths0) else lengths0
      num_samples := samples.length
      sequence_length := sequence_length
      kmer := kmer
      augment := augment
      batch_size := batch_size
      batches_per_epoch := batches_per_epoch
      balance := balance
      labels := labels
      rng := rng
      sample_indices := []
      sequence_indices := []
      augment_offsets := [] }

/-- `compute_augmented_offset`: look up the stored fraction for this slot and
return `int(offset * (sequence_len - self.sequence_length + 1))`. -/
def DnaSequenceGenerator.compute_augmented_offset (g : DnaSequenceGenerator)
    (sequence_len : Nat) (batch_index : Int) (i : Nat) : Option Int :=
  ((npIndex g.augment_offsets batch_index).bind (fun row => row[i]?)).map
    (fun u => ratTrunc (u * ((sequence_len : ℚ) - (g.sequence_length : ℚ) + 1)))

/-- The `augment_offset_fn` dispatch chosen in `__init__`:
`compute_augmented_offset` when augmenting, the constant `0` otherwise. -/
def DnaSequenceGenerator.augment_offset_fn (g : DnaSequenceGenerator)
    (sequence_len : Nat) (batch_index : Int) (i : Nat) : Option Int :=
  if g.augment then g.compute_augmented_offset sequence_len batch_index i else some 0

/-- `clip_sequence`: `sequence[offset : offset + self.sequence_length]`. -/
def DnaSequenceGenerator.clip_sequence (g : DnaSequenceGenerator)
    (sequence : List Nat) (offset : Int) : List Nat :=
  pySlice sequence offset (offset + (g.sequence_length : Int))

/-- The generator's `to_kmers` closure. -/
def DnaSequenceGenerator.to_kmers (g : DnaSequenceGenerator) (x : List Nat) : List Nat :=
  toKmersFn g.kmer x

/-- `batch_to_kmers` on the generator. -/
def DnaSequenceGenerator.batch_to_kmersO (g : DnaSequenceGenerator)
    (batch : List (List Nat)) : Option (List (List Nat)) :=
  batchToKmersAux g.sequence_length g.kmer batch

/-- `generate_batch`: read the `batch_index` rows of the index tables (numpy
indexing, so negative indices wrap), fetch each referenced sequence, compute
its offset via `augment_offset_fn`, clip, and write the bytes into the
`(batch_size, sequence_length)` buffer. -/
def DnaSequenceGenerator.generate_batch (g : DnaSequenceGenerator)
    (batch_index : Int) : Option (List (List Nat)) := do
  let srow ← npIndex g.sample_indices batch_index
  let qrow ← npIndex g.sequence_indices batch_index
  optMap (fun i => do
      let s ← srow[i]?
      let q ← qrow[i]?
      let archive ← g.samples[s]?
      let sequence ← archive[q]?
      let offset ← g.augment_offset_fn sequence.length batch_index i
      npBroadcastRow g.sequence_length 0 (g.clip_sequence sequence offset))
    (List.range g.batch_size)

/-- The `post_process_batch` closure selected in `__init__` from the label
mode. -/
def DnaSequenceGenerator.post_process_batch (g : DnaSequenceGenerator)
    (batch : List (List Nat)) (batch_index : Int) : Option SeqBatchOut :=
  match g.labels with
  | some DnaLabelType.SampleIds => do
      let f ← g.batch_to_kmersO batch
      let ids ← npIndex g.sample_indices batch_index
      some (SeqBatchOut.sampleIds f ids)
  | some DnaLabelType.OneMer =>
      (g.batch_to_kmersO batch).map (fun f => SeqBatchOut.oneMer f batch)
  | some DnaLabelType.KMer =>
      (g.batch_to_kmersO batch).map (fun f => SeqBatchOut.kMer f f)
  | none => (g.batch_to_kmersO batch).map SeqBatchOut.plain

/-- `__getitem__`: generate the raw batch and post-process it. -/
def DnaSequenceGenerator.getItem (g : DnaSequenceGenerator) (batch_index : Int) :
    Option SeqBatchOut :=
  (g.generate_batch batch_index).bind (fun b => g.post_process_batch b batch_index)

/-- `__getitem__` as a state transformer: the method assigns no attribute and
calls no RNG primitive, so the post-state equals the pre-state. -/
def DnaSequenceGenerator.getItemS (g : DnaSequenceGenerator) (batch_index : Int) :
    Option SeqBatchOut × DnaSequenceGenerator :=
  (g.getItem batch_index, g)

/-- `on_epoch_end`: rebuild the index tables. -/
def DnaSequenceGenerator.on_epoch_end (g : DnaSequenceGenerator) : DnaSequenceGenerator :=
  g.shuffle

/-- All batches of the current epoch, in batch-index order. -/
def DnaSequenceGenerator.epochOutputs (g : DnaSequenceGenerator) : List (Option SeqBatchOut) :=
  (List.range g.batches_per_epoch).map (fun i => g.getItem (i : Int))

/-- The batch streams of the first `n` epochs, advancing the generator with
`on_epoch_end` between epochs. -/
def DnaSequenceGenerator.runEpochs : DnaSequenceGenerator → Nat → List (List (Option SeqBatchOut))
  | _, 0 => []
  | g, n + 1 => g.epochOutputs :: DnaSequenceGenerator.runEpochs g.on_epoch_end n

/-! ## DnaSampleGenerator (subsample / group mode) -/

/-- The value returned by `DnaSampleGenerator.__getitem__` (3-D features). -/
inductive SampleBatchOut
  | plain (features : List (List (List Nat)))
  | sampleIds (features : List (List (List Nat))) (ids : List Nat)
  | oneMer (features bases : List (List (List Nat)))
  | kMer (features target : List (List (List Nat)))
deriving DecidableEq

/-- The state of a `DnaSampleGenerator`: one group of `subsample_length`
sequences per batch slot, hence a 3-D sequence-key table and 3-D augmentation
fractions. -/
structure DnaSampleGenerator where
  samples : List Archive
  sample_lengths : List Nat
  num_samples : Nat
  subsample_length : Nat
  sequence_length : Nat
  kmer : Nat
  augment : Bool
  batch_size : Nat
  batches_per_epoch : Nat
  balance : Bool
  labels : Option DnaLabelType
  rng : RNG
  sample_indices : List (List Nat)
  sequence_indices : List (List (List Nat))
  augment_offsets : List (List (List ℚ))

/-- `DnaSampleGenerator.shuffle`: draw the archive-index table, then for each
slot `(i,j)` draw `subsample_length` distinct keys from
`np.arange(sample_lengths[sample_indices[i,j]])` without replacement (numpy
raises when the group exceeds the population, aborting the epoch build), then
draw the 3-D augmentation fractions. -/
def DnaSampleGenerator.shuffle (g : DnaSampleGenerator) : Option DnaSampleGenerator :=
  let p1 := drawMat (rngIntegers g.num_samples) g.batches_per_epoch g.batch_size g.rng
  let lengths := p1.1.map (List.map (fun s => g.sample_lengths.getD s 0))
  let p2 := mapListState
    (fun row r => mapListState (fun n r2 => rngChoice n g.subsample_length r2) row r)
    lengths p1.2
  match p2.1 with
  | none => none
  | some qi =>
    let p3 :=
      if g.augment then
        drawMat3 rngUniform g.batches_per_epoch g.batch_size g.subsample_length p2.2
      else (g.augment_offsets, p2.2)
    some { g with rng := p3.2, sample_indices := p1.1, sequence_indices := qi,
                  augment_offsets := p3.1 }

/-- `DnaSampleGenerator.__init__`: store `subsample_length`, then run the base
constructor, which clamps effective lengths when balancing and builds the first
epoch's tables via the overridden `shuffle`. -/
def DnaSampleGenerator.init (samples : List Archive)
    (subsample_length sequence_length kmer batch_size batches_per_epoch : Nat)
    (augment balance : Bool) (labels : Option DnaLabelType) (rng : RNG) :
    Option DnaSampleGenerator :=
  let lengths0 := samples.map List.length
  DnaSampleGenerator.shuffle
    { samples := samples
      sample_lengths :=
        if balance then List.replicate lengths0.length (natMin lengths0) else lengths0
      num_samples := samples.length
      subsample_length := subsample_length
      sequence_length := sequence_length
      kmer := kmer
      augment := augment
      batch_size := batch_size
      batches_per_epoch := batches_per_epoch
      balance := balance
      labels := labels
      rng := rng
      sample_indices := []
      sequence_indices := []
      augment_offsets := [] }

/-- Inherited `compute_augmented_offset`, with the 3-component slot index. -/
def DnaSampleGenerator.compute_augmented_offset (g : DnaSampleGenerator)
    (sequence_len : Nat) (batch_index : Int) (i j : Nat) : Option Int :=
  ((npIndex g.augment_offsets batch_index).bind
      (fun mat => mat[i]?.bind (fun row => row[j]?))).map
    (fun u => ratTrunc (u * ((sequence_len : ℚ) - (g.sequence_length : ℚ) + 1)))

/-- Inherited `augment_offset_fn` dispatch. -/
def DnaSampleGenerator.augment_offset_fn (g : DnaSampleGenerator)
    (sequence_len : Nat) (batch_index : Int) (i j : Nat) : Option Int :=
  if g.augment then g.compute_augmented_offset sequence_len batch_index i j else some 0

/-- Overridden `generate_batch`: a `(batch_size, subsample_length,
sequence_length)` buffer, filled per slot and per group member. -/
def DnaSampleGenerator.generate_batch (g : DnaSampleGenerator) (batch_index : Int) :
    Option (List (List (List Nat))) := do
  let srow ← npIndex g.sample_indices batch_index
  let qmat ← npIndex g.sequence_indices batch_index
  optMap (fun i => do
      let s ← srow[i]?
      let archive ← g.samples[s]?
      let keys ← qmat[i]?
      optMap (fun j => do
          let q ← keys[j]?
          let sequence ← archive[q]?
          let offset ← g.augment_offset_fn sequence.length batch_index i j
          npBroadcastRow g.sequence_length 0
            (pySlice sequence offset (offset + (g.sequence_length : Int))))
        (List.range g.subsample_length))
    (List.range g.batch_size)

/-- Overridden `batch_to_kmers`: encode each sequence of each group
(`super().batch_to_kmers` per subsample). -/
def DnaSampleGenerator.batch_to_kmersO (g : DnaSampleGenerator)
    (batch : List (List (List Nat))) : Option (List (List (List Nat))) :=
  optMap (fun sub => batchToKmersAux g.sequence_length g.kmer sub) batch

/-- Inherited `post_process_batch` dispatch, over 3-D batches. -/
def DnaSampleGenerator.post_process_batch (g : DnaSampleGenerator)
    (batch : List (List (List Nat))) (batch_index : Int) : Option SampleBatchOut :=
  match g.labels with
  | some DnaLabelType.SampleIds => do
      let f ← g.batch_to_kmersO batch
      let ids ← npIndex g.sample_indices batch_index
      some (SampleBatchOut.sampleIds f ids)
  | some DnaLabelType.OneMer =>
      (g.batch_to_kmersO batch).map (fun f => SampleBatchOut.oneMer f batch)
  | some DnaLabelType.KMer =>
      (g.batch_to_kmersO batch).map (fun f => SampleBatchOut.kMer f f)
  | none => (g.batch_to_kmersO batch).map SampleBatchOut.plain

/-- Inherited `__getitem__`. -/
def DnaSampleGenerator.getItem (g : DnaSampleGenerator) (batch_index : Int) :
    Option SampleBatchOut :=
  (g.generate_batch batch_index).bind (fun b => g.post_process_batch b batch_index)

/-- `__getitem__` as a state transformer (no attribute writes, no RNG use). -/
def DnaSampleGenerator.getItemS (g : DnaSampleGenerator) (batch_index : Int) :
    Option SampleBatchOut × DnaSampleGenerator :=
  (g.getItem batch_index, g)

/-- Inherited `on_epoch_end`: rebuild the tables with the overridden
`shuffle`. -/
def DnaSampleGenerator.on_epoch_end (g : DnaSampleGenerator) : Option DnaSampleGenerator :=
  g.shuffle

/-- All batches of the current epoch. -/
def DnaSampleGenerator.epochOutputs (g : DnaSampleGenerator) : List (Option SampleBatchOut) :=
  (List.range g.batches_per_epoch).map (fun i => g.getItem (i : Int))

/-- The batch streams of the first `n` epochs (an epoch build that raises ends
the run). -/
def DnaSampleGenerator.runEpochs : DnaSampleGenerator → Nat → List (List (Option SampleBatchOut))
  | _, 0 => []
  | g, n + 1 =>
    g.epochOutputs ::
      (match g.on_epoch_end with
       | some g2 => DnaSampleGenerator.runEpochs g2 n
       | none => [])

/-! ## The standalone `random_subsamples` utility -/

/-- The dynamic value of `sample_lengths` inside `random_subsamples`: the
length array, or — after `sample_lengths = np.min(sample_lengths)` when
`balance` is set — a numpy scalar, which is not subscriptable. -/
inductive NpLen
  | arr (l : List Nat)
  | scalar (n : Nat)

/-- `sample_lengths[i]`: indexing the scalar raises
`IndexError: invalid index to scalar variable`. -/
def NpLen.index : NpLen → Nat → Option Nat
  | NpLen.arr l, i => l[i]?
  | NpLen.scalar _, _ => none

/-- The dynamic value of `augments` inside `random_subsamples`: a 3-D block of
uniform fractions when `augment` is set, else `np.zeros_like(result.shape[:-1])`
— `zeros_like` of the shape *tuple*, i.e. a 1-D array of three zeros. -/
inductive NpAug
  | arr3 (a : List (List (List ℚ)))
  | arr1 (z : List Nat)

/-- `augments[i,j,k]`: three indices into the 1-D array raise
`IndexError: too many indices for array`. -/
def NpAug.index3 : NpAug → Nat → Nat → Nat → Option ℚ
  | NpAug.arr3 a, i, j, k => (a[i]?.bind (fun m => m[j]?)).bind (fun row => row[k]?)
  | NpAug.arr1 _, _, _, _ => none

/-- The innermost loop of `random_subsamples`: for each `k, sequence_index in
enumerate(indices)`, fetch the sequence, compute the offset from
`augments[i,j,k]`, and write the clipped window into `result[i,j,k]`. -/
def rsInner (W : Nat) (aug : NpAug) (archive : Archive) (i j : Nat)
    (keys : List Nat) : Option (List (List Nat)) :=
  optMap (fun k => do
      let q ← keys[k]?
      let sequence ← archive[q]?
      let u ← aug.index3 i j k
      let offset := ratTrunc (u * ((sequence.length : ℚ) - (W : ℚ) + 1))
      npBroadcastRow W 0 (pySlice sequence offset (offset + (W : Int))))
    (List.range keys.length)

/-- `random_subsamples(samples, sequence_length, subsample_size,
subsamples_per_sample, augment, balance, rng)` from src/common/data.py:
open the archives, optionally reduce `sample_lengths` with `np.min`, draw the
augmentation fractions (or build the buggy `zeros_like` of the shape tuple),
then for each archive `i` build `all_indices = np.arange(sample_lengths[i])`
and draw `subsample_size` distinct keys per repetition. -/
def random_subsamples (samples : List Archive) (sequence_length subsample_size : Nat)
    (subsamples_per_sample : Nat) (augment balance : Bool) (r : RNG) :
    Option (List (List (List (List Nat)))) :=
  let lengths := samples.map List.length
  let lens := if balance then NpLen.scalar (natMin lengths) else NpLen.arr lengths
  let pAug :=
    if augment then
      let p := drawMat3 rngUniform samples.length subsamples_per_sample subsample_size r
      (NpAug.arr3 p.1, p.2)
    else (NpAug.arr1 [0, 0, 0], r)
  (loopState (fun i ri =>
      match samples[i]?, lens.index i with
      | some archive, some n =>
        loopState (fun _j rj =>
            let pc := rngChoice n subsample_size rj
            match pc.1 with
            | none => (none, pc.2)
            | some keys => (rsInner sequence_length pAug.1 archive i _j keys, pc.2))
          0 subsamples_per_sample ri
      | _, _ => (none, ri))
    0 samples.length pAug.2).1

/-- The position along the first axis that numpy indexing resolves `i` to
(an out-of-range request resolves to the list's length, which reads as
`none`). -/
def npPos (len : Nat) (i : Int) : Nat :=
  if 0 ≤ i then i.toNat
  else if (len : Int) + i < 0 then len
  else ((len : Int) + i).toNat

/-! ## Invariants of DnaSequenceGenerator -/

/-- Configuration well-formedness: a validly configured generator over
nonempty archives whose sequences are long enough to clip. -/
def SeqConfigWf (g : DnaSequenceGenerator) : Prop :=
  g.num_samples = g.samples.length ∧
  g.samples ≠ [] ∧
  List.Forall₂ (fun l (a : Archive) => 0 < l ∧ l ≤ a.length) g.sample_lengths g.samples ∧
  (∀ a ∈ g.samples, ∀ s ∈ a, g.sequence_length ≤ s.length) ∧
  1 ≤ g.kmer ∧ g.kmer ≤ g.sequence_length ∧ g.rng.Wf

/-- Index-table well-formedness: the tables have shape
`(batches_per_epoch, batch_size)`, archive indices are in range, each sequence
key is below the effective length of its slot's archive, and the stored
augmentation fractions are in `[0,1)`. -/
def SeqTableWf (g : DnaSequenceGenerator) : Prop :=
  g.sample_indices.length = g.batches_per_epoch ∧
  (∀ row ∈ g.sample_indices, row.length = g.batch_size ∧ ∀ s ∈ row, s < g.num_samples) ∧
  List.Forall₂ (List.Forall₂ (fun s q => q < g.sample_lengths.getD s 0))
    g.sample_indices g.sequence_indices ∧
  (g.augment = true → g.augment_offsets.length = g.batches_per_epoch ∧
    ∀ row ∈ g.augment_offsets, row.length = g.batch_size ∧ ∀ u ∈ row, 0 ≤ u ∧ u < 1)

/-- The full state invariant, including the balance clamp on effective
lengths. -/
def SeqInv (g : DnaSequenceGenerator) : Prop :=
  SeqConfigWf g ∧ SeqTableWf g ∧
    (g.balance = true →
      g.sample_lengths = List.replicate g.samples.length (natMin (g.samples.map List.length)))

/-- The three RNG-consuming draws of `DnaSequenceGenerator.shuffle`, named for
reasoning (definitionally equal to the lets inside `shuffle`). -/
def seqDraw1 (g : DnaSequenceGenerator) : List (List Nat) × RNG :=
  drawMat (rngIntegers g.num_samples) g.batches_per_epoch g.batch_size g.rng

def seqDraw2 (g : DnaSequenceGenerator) : List (List ℚ) × RNG :=
  drawMat rngUniform g.batches_per_epoch g.batch_size (seqDraw1 g).2

def seqDraw3 (g : DnaSequenceGenerator) : List (List ℚ) × RNG :=
  if g.augment = true then drawMat rngUniform g.batches_per_epoch g.batch_size (seqDraw2 g).2
  else (g.augment_offsets, (seqDraw2 g).2)

/-- The states a validly configured `DnaSequenceGenerator` can reach: the state
the constructor returns, plus anything reachable by epoch boundaries
(`__getitem__` does not change the state). -/
inductive SeqReachable : DnaSequenceGenerator → Prop
  | base (samples : List Archive) (W k bs bpe : Nat) (aug bal : Bool)
      (labels : Option DnaLabelType) (r : RNG) :
      samples ≠ [] → (∀ a ∈ samples, a ≠ []) →
      (∀ a ∈ samples, ∀ s ∈ a, W ≤ s.length) →
      1 ≤ k → k ≤ W → r.Wf →
      SeqReachable (DnaSequenceGenerator.init samples W k bs bpe aug bal labels r)
  | step (g : DnaSequenceGenerator) : SeqReachable g → SeqReachable g.on_epoch_end

/-! ## Invariants of DnaSampleGenerator -/

/-- Configuration well-formedness for the subsample generator (additionally,
each effective length can accommodate a without-replacement group draw). -/
def SampleConfigWf (g : DnaSampleGenerator) : Prop :=
  g.num_samples = g.samples.length ∧
  g.samples ≠ [] ∧
  List.Forall₂ (fun l (a : Archive) => 0 < l ∧ l ≤ a.length ∧ g.subsample_length ≤ l)
    g.sample_lengths g.samples ∧
  (∀ a ∈ g.samples, ∀ s ∈ a, g.sequence_length ≤ s.length) ∧
  1 ≤ g.kmer ∧ g.kmer ≤ g.sequence_length ∧ g.rng.Wf

/-- Index-table well-formedness for the subsample generator: per slot, the
group's keys are `subsample_length` many, pairwise distinct, and below the
effective length of the slot's archive. -/
def SampleTableWf (g : DnaSampleGenerator) : Prop :=
  g.sample_indices.length = g.batches_per_epoch ∧
  (∀ row ∈ g.sample_indices, row.length = g.batch_size ∧ ∀ s ∈ row, s < g.num_samples) ∧
  List.Forall₂ (List.Forall₂ (fun s keys => keys.length = g.subsample_length ∧
    keys.Nodup ∧ ∀ q ∈ keys, q < g.sample_lengths.getD s 0))
    g.sample_indices g.sequence_indices ∧
  (g.augment = true → g.augment_offsets.length = g.batches_per_epoch ∧
    ∀ mat ∈ g.augment_offsets, mat.length = g.batch_size ∧
      ∀ row ∈ mat, row.length = g.subsample_length ∧ ∀ u ∈ row, 0 ≤ u ∧ u < 1)

/-- Full state invariant of the subsample generator. -/
def SampleInv (g : DnaSampleGenerator) : Prop :=
  SampleConfigWf g ∧ SampleTableWf g ∧
    (g.balance = true →
      g.sample_lengths = List.replicate g.samples.length (natMin (g.samples.map List.length)))

/-- The RNG-consuming stages of `DnaSampleGenerator.shuffle`, named for
reasoning. -/
def samDraw1 (g : DnaSampleGenerator) : List (List Nat) × RNG :=
  drawMat (rngIntegers g.num_samples) g.batches_per_epoch g.batch_size g.rng

def samLengths (g : DnaSampleGenerator) : List (List Nat) :=
  (samDraw1 g).1.map (List.map (fun s => g.sample_lengths.getD s 0))

def samDraw2 (g : DnaSampleGenerator) : Option (List (List (List Nat))) × RNG :=
  mapListState
    (fun row r => mapListState (fun n r2 => rngChoice n g.subsample_length r2) row r)
    (samLengths g) (samDraw1 g).2

def samDraw3 (g : DnaSampleGenerator) : List (List (List ℚ)) × RNG :=
  if g.augment = true then
    drawMat3 rngUniform g.batches_per_epoch g.batch_size g.subsample_length (samDraw2 g).2
  else (g.augment_offsets, (samDraw2 g).2)

/-- The states a validly configured `DnaSampleGenerator` can reach: a
successfully constructed state, plus anything reachable by successful epoch
boundaries. -/
inductive SampleReachable : DnaSampleGenerator → Prop
  | base (samples : List Archive) (sub W k bs bpe : Nat) (aug bal : Bool)
      (labels : Option DnaLabelType) (r : RNG) (g2 : DnaSampleGenerator) :
      samples ≠ [] → (∀ a ∈ samples, a ≠ []) →
      (∀ a ∈ samples, ∀ s ∈ a, W ≤ s.length) →
      (∀ a ∈ samples, sub ≤ a.length) →
      1 ≤ k → k ≤ W → r.Wf →
      DnaSampleGenerator.init samples sub W k bs bpe aug bal labels r = some g2 →
      SampleReachable g2
  | step (g g2 : DnaSampleGenerator) : SampleReachable g → g.on_epoch_end = some g2 →
      SampleReachable g2

/-! ## Witness gadgets: small concrete configurations -/

/-- A concrete seeded generator stream (all draws are 0). -/
def rng0 : RNG := ⟨fun _ => 0, 0⟩

/-- A one-archive, one-sequence generator (`W = 2`, `k = 1`, one batch of one
slot per epoch, no augmentation, no balancing). -/
def g0 : DnaSequenceGenerator :=
  DnaSequenceGenerator.init [[[0, 0]]] 2 1 1 1 false false none rng0

/-- A two-archive balanced generator (`W = 2`, archives of 1 and 2
sequences). -/
def gBal : DnaSequenceGenerator :=
  DnaSequenceGenerator.init [[[0, 0]], [[1, 1], [2, 2]]] 2 1 1 1 false true none rng0

/-- The state `DnaSampleGenerator.init [[[0,0],[1,1]]] 2 2 1 1 1 false false
none rng0` returns (group size 2 over one archive of two sequences). -/
def gSam : DnaSampleGenerator :=
  { samples := [[[0, 0], [1, 1]]], sample_lengths := [2], num_samples := 1,
    subsample_length := 2, sequence_length := 2, kmer := 1, augment := false,
    batch_size := 1, batches_per_epoch := 1, balance := false, labels := none,
    rng := ⟨fun _ => 0, 3⟩, sample_indices := [[0]],
    sequence_indices := [[[0, 1]]], augment_offsets := [] }

/-- A concrete generator with augmentation on and a stored fraction table, for
the C4 witness. -/
def gAug : DnaSequenceGenerator :=
  { samples := [[[0, 0, 0]]], sample_lengths := [1], num_samples := 1,
    sequence_length := 2, kmer := 1, augment := true, batch_size := 1,
    batches_per_epoch := 1, balance := false, labels := none, rng := rng0,
    sample_indices := [[0]], sequence_indices := [[0]], augment_offsets := [[0]] }

/-! ## Basic lemmas about the RNG model and helpers -/

theorem ratTrunc_of_nonneg {q : ℚ} (h : 0 ≤ q) : ratTrunc q = ⌊q⌋ := if_pos h

theorem ratTrunc_nonneg {q : ℚ} (h : 0 ≤ q) : 0 ≤ ratTrunc q := by
  rw [ratTrunc_of_nonneg h]; exact Int.floor_nonneg.2 h

theorem ratTrunc_mul_toNat_lt {u : ℚ} {n : Nat} (h0 : 0 ≤ u) (h1 : u < 1)
    (hn : 0 < n) : (ratTrunc (u * (n : ℚ))).toNat < n := by
  have hn0 : (0 : ℚ) < (n : ℚ) := by exact_mod_cast hn
  have hmul : 0 ≤ u * (n : ℚ) := mul_nonneg h0 (le_of_lt hn0)
  rw [ratTrunc_of_nonneg hmul]
  have hlt : u * (n : ℚ) < (n : ℚ) := mul_lt_of_lt_one_left hn0 h1
  have hfl : ⌊u * (n : ℚ)⌋ < (n : Int) := Int.floor_lt.2 (by exact_mod_cast hlt)
  have hnn : 0 ≤ ⌊u * (n : ℚ)⌋ := Int.floor_nonneg.2 hmul
  omega

theorem RNG.Wf.next {r : RNG} (h : r.Wf) : (r.next).2.Wf := h

theorem RNG.Wf.next_fst {r : RNG} (h : r.Wf) : 0 ≤ (r.next).1 ∧ (r.next).1 < 1 :=
  h r.pos

theorem rngUniform_spec {r : RNG} (h : r.Wf) :
    (0 ≤ (rngUniform r).1 ∧ (rngUniform r).1 < 1) ∧ (rngUniform r).2.Wf :=
  ⟨h r.pos, h⟩

theorem rngIntegers_spec {n : Nat} {r : RNG} (h : r.Wf) (hn : 0 < n) :
    (rngIntegers n r).1 < n ∧ (rngIntegers n r).2.Wf := by
  refine ⟨?_, h⟩
  exact ratTrunc_mul_toNat_lt (h r.pos).1 (h r.pos).2 hn

theorem drawRow_spec {α : Type} (f : RNG → α × RNG) (P : α → Prop)
    (hf : ∀ r : RNG, r.Wf → P (f r).1 ∧ (f r).2.Wf) :
    ∀ (n : Nat) (r : RNG), r.Wf →
      (drawRow f n r).1.length = n ∧ (∀ x ∈ (drawRow f n r).1, P x) ∧
        (drawRow f n r).2.Wf := by
  intro n
  induction n with
  | zero => intro r hr; simp [drawRow, hr]
  | succ m ih =>
    intro r hr
    obtain ⟨h1, h2⟩ := hf r hr
    obtain ⟨ihl, ihm, ihw⟩ := ih (f r).2 h2
    refine ⟨by simp [drawRow, ihl], ?_, by simpa [drawRow] using ihw⟩
    intro x hx
    simp only [drawRow, List.mem_cons] at hx
    rcases hx with h | h
    · exact h ▸ h1
    · exact ihm x h

theorem drawMat_spec {α : Type} (f : RNG → α × RNG) (P : α → Prop)
    (hf : ∀ r : RNG, r.Wf → P (f r).1 ∧ (f r).2.Wf) (rows cols : Nat) (r : RNG)
    (hr : r.Wf) :
    (drawMat f rows cols r).1.length = rows ∧
      (∀ row ∈ (drawMat f rows cols r).1, row.length = cols ∧ ∀ x ∈ row, P x) ∧
      (drawMat f rows cols r).2.Wf := by
  have h := drawRow_spec (fun r2 => drawRow f cols r2)
    (fun row => row.length = cols ∧ ∀ x ∈ row, P x)
    (fun r2 hr2 => by
      obtain ⟨a, b, c⟩ := drawRow_spec f P hf cols r2 hr2
      exact ⟨⟨a, b⟩, c⟩) rows r hr
  exact ⟨h.1, h.2.1, h.2.2⟩

theorem drawMat3_spec {α : Type} (f : RNG → α × RNG) (P : α → Prop)
    (hf : ∀ r : RNG, r.Wf → P (f r).1 ∧ (f r).2.Wf) (a b c : Nat) (r : RNG)
    (hr : r.Wf) :
    (drawMat3 f a b c r).1.length = a ∧
      (∀ mat ∈ (drawMat3 f a b c r).1, mat.length = b ∧
        ∀ row ∈ mat, row.length = c ∧ ∀ x ∈ row, P x) ∧
      (drawMat3 f a b c r).2.Wf := by
  have h := drawRow_spec (fun r2 => drawMat f b c r2)
    (fun mat => mat.length = b ∧ ∀ row ∈ mat, row.length = c ∧ ∀ x ∈ row, P x)
    (fun r2 hr2 => by
      obtain ⟨x, y, z⟩ := drawMat_spec f P hf b c r2 hr2
      exact ⟨⟨x, y⟩, z⟩) a r hr
  exact ⟨h.1, h.2.1, h.2.2⟩

theorem npIndex_eq_getElem? {α : Type} (l : List α) (i : Int) :
    npIndex l i = l[npPos l.length i]? := by
  unfold npIndex npPos
  split
  · rfl
  · split
    · exact (List.getElem?_eq_none (le_refl _)).symm
    · rfl

theorem npPos_lt {len : Nat} {i : Int} (h1 : -(len : Int) ≤ i) (h2 : i < len) :
    npPos len i < len := by
  unfold npPos
  split
  · omega
  · split
    · omega
    · omega

theorem npPos_ge {len : Nat} {i : Int} (h : ¬(-(len : Int) ≤ i ∧ i < len)) :
    len ≤ npPos len i := by
  unfold npPos
  split
  · omega
  · split
    · omega
    · omega

theorem npIndex_isSome_of {α : Type} {l : List α} {i : Int}
    (h1 : -(l.length : Int) ≤ i) (h2 : i < l.length) :
    ∃ x, npIndex l i = some x ∧ x ∈ l := by
  rw [npIndex_eq_getElem?]
  have hlt := npPos_lt h1 h2
  exact ⟨l[npPos l.length i], List.getElem?_eq_getElem hlt, List.getElem_mem hlt⟩

theorem npIndex_eq_none_of {α : Type} {l : List α} {i : Int}
    (h : ¬(-(l.length : Int) ≤ i ∧ i < l.length)) : npIndex l i = none := by
  rw [npIndex_eq_getElem?]
  exact List.getElem?_eq_none (npPos_ge h)

theorem npIndex_mem {α : Type} {l : List α} {i : Int} {x : α}
    (h : npIndex l i = some x) : x ∈ l := by
  rw [npIndex_eq_getElem?] at h
  exact List.getElem?_mem h

theorem pySlice_length {α : Type} (l : List α) (o : Int) (W : Nat)
    (h0 : 0 ≤ o) (hW : o + (W : Int) ≤ (l.length : Int)) :
    (pySlice l o (o + (W : Int))).length = W := by
  unfold pySlice pySliceIdx
  rw [if_neg (by omega), if_neg (by omega)]
  simp only [List.length_drop, List.length_take]
  omega

theorem npBroadcastRow_of_length {α : Type} {w : Nat} {d : α} {xs : List α}
    (h : xs.length = w) : npBroadcastRow w d xs = some xs := if_pos h

theorem npBroadcastRow_some {α : Type} {w : Nat} {d : α} {xs ys : List α}
    (h : npBroadcastRow w d xs = some ys) : ys.length = w := by
  unfold npBroadcastRow at h
  split at h
  · cases h; omega
  · split at h
    · cases h; simp
    · cases h

theorem optMap_some_forall₂ {α β : Type} (f : α → Option β) :
    ∀ (xs : List α) (ys : List β),
      optMap f xs = some ys ↔ List.Forall₂ (fun x y => f x = some y) xs ys := by
  intro xs
  induction xs with
  | nil =>
    intro ys
    constructor
    · intro h; cases h; exact List.Forall₂.nil
    · intro h; cases h; rfl
  | cons x xs ih =>
    intro ys
    constructor
    · intro h
      unfold optMap at h
      cases hfx : f x with
      | none => rw [hfx] at h; cases h
      | some y =>
        rw [hfx] at h
        cases hrec : optMap f xs with
        | none => rw [hrec] at h; cases h
        | some zs =>
          rw [hrec] at h
          cases h
          exact List.Forall₂.cons hfx ((ih zs).1 hrec)
    · intro h
      cases h with
      | cons hy htail =>
        unfold optMap
        rw [hy, (ih _).2 htail]
        rfl

theorem optMap_isSome {α β : Type} (f : α → Option β) :
    ∀ (xs : List α), (∀ x ∈ xs, (f x).isSome) → ∃ ys, optMap f xs = some ys := by
  intro xs
  induction xs with
  | nil => intro _; exact ⟨[], rfl⟩
  | cons x xs ih =>
    intro h
    obtain ⟨y, hy⟩ := Option.isSome_iff_exists.1 (h x (List.mem_cons_self x xs))
    obtain ⟨ys, hys⟩ := ih (fun z hz => h z (List.mem_cons_of_mem x hz))
    exact ⟨y :: ys, by unfold optMap; rw [hy, hys]; rfl⟩

theorem forall₂_mem_right {α β : Type} {R : α → β → Prop} :
    ∀ {a : List α} {b : List β}, List.Forall₂ R a b → ∀ y ∈ b, ∃ x ∈ a, R x y := by
  intro a b h
  induction h with
  | nil => intro y hy; cases hy
  | cons hxy _ ih =>
    intro y hy
    rcases List.mem_cons.1 hy with h1 | h1
    · exact ⟨_, List.mem_cons_self _ _, h1 ▸ hxy⟩
    · obtain ⟨x, hx, hr⟩ := ih y h1
      exact ⟨x, List.mem_cons_of_mem _ hx, hr⟩

theorem forall₂_getElem? {α β : Type} {R : α → β → Prop} :
    ∀ {a : List α} {b : List β}, List.Forall₂ R a b →
      ∀ {i : Nat} {x : α} {y : β}, a[i]? = some x → b[i]? = some y → R x y := by
  intro a b h
  induction h with
  | nil => intro i x y hx; cases hx
  | cons hxy htail ih =>
    intro i x y hx hy
    cases i with
    | zero =>
      rw [List.getElem?_cons_zero] at hx hy
      cases hx; cases hy; exact hxy
    | succ m => exact ih (by simpa using hx) (by simpa using hy)

theorem forall₂_getElem?_right {α β : Type} {R : α → β → Prop} :
    ∀ {a : List α} {b : List β}, List.Forall₂ R a b →
      ∀ {i : Nat} {y : β}, b[i]? = some y → ∃ x, a[i]? = some x ∧ R x y := by
  intro a b h
  induction h with
  | nil => intro i y hy; cases hy
  | cons hxy htail ih =>
    intro i y hy
    cases i with
    | zero =>
      rw [List.getElem?_cons_zero] at hy
      cases hy; exact ⟨_, List.getElem?_cons_zero, hxy⟩
    | succ m =>
      obtain ⟨x, hx, hr⟩ := ih (by simpa using hy)
      exact ⟨x, by simpa using hx, hr⟩

theorem foldl_min_le_init : ∀ (xs : List Nat) (x : Nat), xs.foldl Nat.min x ≤ x := by
  intro xs
  induction xs with
  | nil => intro x; exact le_refl x
  | cons a xs ih =>
    intro x
    calc (a :: xs).foldl Nat.min x = xs.foldl Nat.min (Nat.min x a) := rfl
      _ ≤ Nat.min x a := ih _
      _ ≤ x := Nat.min_le_left _ _

theorem foldl_min_le_mem : ∀ (xs : List Nat) (x y : Nat), y ∈ xs → xs.foldl Nat.min x ≤ y := by
  intro xs
  induction xs with
  | nil => intro x y hy; cases hy
  | cons a xs ih =>
    intro x y hy
    rcases List.mem_cons.1 hy with h | h
    · subst h
      calc (y :: xs).foldl Nat.min x = xs.foldl Nat.min (Nat.min x y) := rfl
        _ ≤ Nat.min x y := foldl_min_le_init _ _
        _ ≤ y := Nat.min_le_right _ _
    · exact ih (Nat.min x a) y h

theorem foldl_min_mem : ∀ (xs : List Nat) (x : Nat),
    xs.foldl Nat.min x = x ∨ xs.foldl Nat.min x ∈ xs := by
  intro xs
  induction xs with
  | nil => intro x; exact Or.inl rfl
  | cons a xs ih =>
    intro x
    rcases ih (Nat.min x a) with h | h
    · rcases Nat.le_total x a with hxa | hax
      · left
        rw [show (a :: xs).foldl Nat.min x = xs.foldl Nat.min (Nat.min x a) from rfl, h]
        exact Nat.min_eq_left hxa
      · right
        rw [show (a :: xs).foldl Nat.min x = xs.foldl Nat.min (Nat.min x a) from rfl, h]
        simp [Nat.min_eq_right hax]
    · right
      exact List.mem_cons_of_mem _ h

theorem natMin_le {l : List Nat} {x : Nat} (h : x ∈ l) : natMin l ≤ x := by
  cases l with
  | nil => cases h
  | cons a xs =>
    rcases List.mem_cons.1 h with h1 | h1
    · subst h1; exact foldl_min_le_init xs x
    · exact foldl_min_le_mem xs a x h1

theorem natMin_mem {l : List Nat} (h : l ≠ []) : natMin l ∈ l := by
  cases l with
  | nil => exact absurd rfl h
  | cons a xs =>
    rcases foldl_min_mem xs a with h1 | h1
    · rw [show natMin (a :: xs) = xs.foldl Nat.min a from rfl, h1]
      exact List.mem_cons_self _ _
    · exact List.mem_cons_of_mem _ h1

/-! ## Lemmas about sampling without replacement -/

theorem nodup_getElem_not_mem_eraseIdx :
    ∀ (l : List Nat) (i : Nat) (h : i < l.length), l.Nodup → l[i] ∉ l.eraseIdx i := by
  intro l
  induction l with
  | nil => intro i h; cases h
  | cons a xs ih =>
    intro i h hnd
    cases i with
    | zero =>
      simp only [List.eraseIdx_cons_zero, List.getElem_cons_zero]
      exact (List.nodup_cons.1 hnd).1
    | succ m =>
      simp only [List.eraseIdx_cons_succ, List.getElem_cons_succ]
      intro hmem
      rcases List.mem_cons.1 hmem with h1 | h1
      · have hm : m < xs.length := by simpa using h
        exact (List.nodup_cons.1 hnd).1 (h1 ▸ List.getElem_mem hm)
      · exact ih m (by simpa using h) (List.nodup_cons.1 hnd).2 h1

theorem drawNoReplace_spec :
    ∀ (g : Nat) (pool : List Nat) (r : RNG), r.Wf → pool.Nodup → g ≤ pool.length →
      (drawNoReplace pool g r).1.length = g ∧ (drawNoReplace pool g r).1.Nodup ∧
        (∀ x ∈ (drawNoReplace pool g r).1, x ∈ pool) ∧ (drawNoReplace pool g r).2.Wf := by
  intro g
  induction g with
  | zero => intro pool r hr _ _; exact ⟨rfl, List.nodup_nil, fun x hx => absurd hx (by simp [drawNoReplace]), hr⟩
  | succ m ih =>
    intro pool r hr hnd hg
    have hpos : 0 < pool.length := Nat.lt_of_lt_of_le (Nat.succ_pos m) hg
    have hidx : (ratTrunc ((r.next).1 * (pool.length : ℚ))).toNat < pool.length :=
      ratTrunc_mul_toNat_lt (hr r.pos).1 (hr r.pos).2 hpos
    set idx := (ratTrunc ((r.next).1 * (pool.length : ℚ))).toNat with hidxdef
    have herasL : (pool.eraseIdx idx).length = pool.length - 1 := by
      rw [List.length_eraseIdx]; rw [if_pos hidx]
    have herasND : (pool.eraseIdx idx).Nodup :=
      (List.eraseIdx_sublist pool idx).nodup hnd
    have hm : m ≤ (pool.eraseIdx idx).length := by omega
    obtain ⟨ihl, ihnd, ihmem, ihwf⟩ := ih (pool.eraseIdx idx) (r.next).2 hr.next herasND hm
    have hgd : pool.getD idx 0 = pool[idx] := by
      rw [List.getD_eq_getElem?_getD, List.getElem?_eq_getElem hidx]; rfl
    refine ⟨?_, ?_, ?_, ?_⟩
    · show (pool.getD idx 0 :: (drawNoReplace (pool.eraseIdx idx) m (r.next).2).1).length = m + 1
      simp [ihl]
    · show (pool.getD idx 0 :: (drawNoReplace (pool.eraseIdx idx) m (r.next).2).1).Nodup
      refine List.nodup_cons.2 ⟨?_, ihnd⟩
      intro hmem
      exact nodup_getElem_not_mem_eraseIdx pool idx hidx hnd (hgd ▸ ihmem _ hmem)
    · intro x hx
      rcases List.mem_cons.1 hx with h1 | h1
      · rw [h1, hgd]; exact List.getElem_mem hidx
      · exact (List.eraseIdx_sublist pool idx).subset (ihmem x h1)
    · exact ihwf

theorem rngChoice_some {n g : Nat} {r : RNG} (hr : r.Wf) (h : g ≤ n) :
    ∃ keys, (rngChoice n g r).1 = some keys ∧ keys.length = g ∧ keys.Nodup ∧
      (∀ x ∈ keys, x < n) ∧ (rngChoice n g r).2.Wf := by
  obtain ⟨hl, hnd, hmem, hwf⟩ :=
    drawNoReplace_spec g (List.range n) r hr (List.nodup_range n) (by simpa using h)
  refine ⟨(drawNoReplace (List.range n) g r).1, ?_, hl, hnd, ?_, ?_⟩
  · unfold rngChoice; rw [if_pos h]
  · intro x hx; exact List.mem_range.1 (hmem x hx)
  · unfold rngChoice; rw [if_pos h]; exact hwf

theorem rngChoice_spec_any {n g : Nat} {r : RNG} (hr : r.Wf) :
    (∀ keys, (rngChoice n g r).1 = some keys →
      keys.length = g ∧ keys.Nodup ∧ ∀ x ∈ keys, x < n) ∧ (rngChoice n g r).2.Wf := by
  by_cases h : g ≤ n
  · obtain ⟨keys, hk, hl, hnd, hmem, hwf⟩ := rngChoice_some hr h
    refine ⟨?_, ?_⟩
    · intro keys2 hk2
      rw [hk] at hk2
      cases hk2
      exact ⟨hl, hnd, hmem⟩
    · unfold rngChoice; rw [if_pos h]
      unfold rngChoice at hwf; rw [if_pos h] at hwf; exact hwf
  · constructor
    · intro keys hk
      unfold rngChoice at hk; rw [if_neg h] at hk; cases hk
    · unfold rngChoice; rw [if_neg h]; exact hr

theorem mapListState_cons {α β : Type} (f : α → RNG → Option β × RNG)
    (x : α) (xs : List α) (r : RNG) :
    mapListState f (x :: xs) r =
      match (f x r).1 with
      | none => (none, (f x r).2)
      | some y =>
        ((mapListState f xs (f x r).2).1.map (fun ys => y :: ys),
          (mapListState f xs (f x r).2).2) := rfl

theorem mapListState_spec {α β : Type} (f : α → RNG → Option β × RNG)
    (P : α → β → Prop)
    (hf : ∀ a (r : RNG), r.Wf →
      (∀ b, (f a r).1 = some b → P a b) ∧ (f a r).2.Wf) :
    ∀ (xs : List α) (r : RNG), r.Wf →
      (∀ ys, (mapListState f xs r).1 = some ys → List.Forall₂ P xs ys) ∧
        (mapListState f xs r).2.Wf := by
  intro xs
  induction xs with
  | nil =>
    intro r hr
    refine ⟨?_, hr⟩
    intro ys h
    cases h
    exact List.Forall₂.nil
  | cons x xs ih =>
    intro r hr
    obtain ⟨hP, hwf⟩ := hf x r hr
    obtain ⟨ihP, ihwf⟩ := ih (f x r).2 hwf
    rw [mapListState_cons]
    cases hfx : (f x r).1 with
    | none => exact ⟨fun ys h => Option.noConfusion h, hwf⟩
    | some y =>
      constructor
      · intro ys h
        cases hrec : (mapListState f xs (f x r).2).1 with
        | none => rw [hrec] at h; cases h
        | some zs =>
          rw [hrec] at h
          simp only [Option.map_some'] at h
          cases h
          exact List.Forall₂.cons (hP y hfx) (ihP zs hrec)
      · exact ihwf

theorem mapListState_isSome {α β : Type} (f : α → RNG → Option β × RNG)
    (good : α → Prop)
    (hf : ∀ a, good a → ∀ (r : RNG), r.Wf → (f a r).1.isSome ∧ (f a r).2.Wf) :
    ∀ (xs : List α) (r : RNG), (∀ a ∈ xs, good a) → r.Wf →
      (mapListState f xs r).1.isSome := by
  intro xs
  induction xs with
  | nil => intro r _ _; simp [mapListState]
  | cons x xs ih =>
    intro r hgood hr
    obtain ⟨hs, hwf⟩ := hf x (hgood x (List.mem_cons_self x xs)) r hr
    obtain ⟨y, hy⟩ := Option.isSome_iff_exists.1 hs
    have hrec := ih (f x r).2 (fun a ha => hgood a (List.mem_cons_of_mem x ha)) hwf
    obtain ⟨zs, hzs⟩ := Option.isSome_iff_exists.1 hrec
    rw [mapListState_cons, hy]
    simp only [hzs, Option.map_some', Option.isSome_some]

/-! ## Lemmas about the k-mer encoder -/

theorem kmer_kernel_length (k : Nat) : (kmer_kernel k).length = k := by
  simp [kmer_kernel]

theorem kmer_kernel_getD {k i : Nat} (h : i < k) : (kmer_kernel k).getD i 0 = 5 ^ i := by
  unfold kmer_kernel
  rw [List.getD_eq_getElem?_getD, List.getElem?_map, List.getElem?_range h]
  rfl

theorem kmer_kernel_reverse : ∀ k : Nat, (kmer_kernel k).reverse = pows k := by
  intro k
  induction k with
  | zero => rfl
  | succ m ih =>
    unfold kmer_kernel
    rw [List.range_succ, List.map_append]
    rw [List.reverse_append]
    show [5 ^ m].reverse ++ (kmer_kernel m).reverse = pows (m + 1)
    rw [ih]
    rfl

theorem dotProd_cons (a b : Nat) (l m : List Nat) :
    dotProd (a :: l) (b :: m) = a * b + dotProd l m := by
  unfold dotProd
  rw [List.zip_cons_cons, List.map_cons, List.sum_cons]

theorem pows_length (k : Nat) : (pows k).length = k := by
  induction k with
  | zero => rfl
  | succ m ih => simp [pows, ih]

theorem getD_zero_of_all_zero {x : List Nat} (h : ∀ c ∈ x, c = 0) (i : Nat) :
    x.getD i 0 = 0 := by
  rw [List.getD_eq_getElem?_getD]
  cases hx : x[i]? with
  | none => rfl
  | some c => exact h c (List.getElem?_mem hx)

theorem convEntry_eq_dotProd :
    ∀ (k j : Nat) (x : List Nat), j + k ≤ x.length →
      ((List.range k).map (fun t =>
        x.getD (j + t) 0 * (kmer_kernel k).getD (k - 1 - t) 0)).sum
        = dotProd ((x.drop j).take k) (pows k) := by
  intro k
  induction k with
  | zero =>
    intro j x _
    simp [dotProd, pows]
  | succ m ih =>
    intro j x h
    have hj : j < x.length := by omega
    rw [List.range_succ_eq_map, List.map_cons, List.sum_cons, List.map_map]
    have h0 : x.getD (j + 0) 0 * (kmer_kernel (m + 1)).getD (m + 1 - 1 - 0) 0
        = x.getD j 0 * 5 ^ m := by
      rw [Nat.add_zero]
      congr 1
      exact kmer_kernel_getD (by omega)
    have hcongr : (List.range m).map ((fun t =>
        x.getD (j + t) 0 * (kmer_kernel (m + 1)).getD (m + 1 - 1 - t) 0) ∘ Nat.succ)
        = (List.range m).map (fun t =>
            x.getD ((j + 1) + t) 0 * (kmer_kernel m).getD (m - 1 - t) 0) := by
      apply List.map_congr_left
      intro t ht
      have htm : t < m := List.mem_range.1 ht
      show x.getD (j + (t + 1)) 0 * (kmer_kernel (m + 1)).getD (m + 1 - 1 - (t + 1)) 0
          = x.getD ((j + 1) + t) 0 * (kmer_kernel m).getD (m - 1 - t) 0
      have e1 : j + (t + 1) = (j + 1) + t := by omega
      have e2 : m + 1 - 1 - (t + 1) = m - 1 - t := by omega
      rw [e1, e2]
      congr 1
      rw [kmer_kernel_getD (show m - 1 - t < m + 1 by omega),
        kmer_kernel_getD (show m - 1 - t < m by omega)]
    rw [h0, hcongr, ih (j + 1) x (by omega)]
    have hdrop : x.drop j = x[j] :: x.drop (j + 1) := List.drop_eq_getElem_cons hj
    rw [hdrop, List.take_succ_cons]
    show x.getD j 0 * 5 ^ m + dotProd ((x.drop (j + 1)).take m) (pows m)
        = dotProd (x[j] :: (x.drop (j + 1)).take m) (5 ^ m :: pows m)
    rw [dotProd_cons]
    congr 1
    rw [List.getD_eq_getElem?_getD, List.getElem?_eq_getElem hj]
    rfl

theorem dotProd_pows_lt :
    ∀ (xs : List Nat), (∀ c ∈ xs, c < 5) → dotProd xs (pows xs.length) < 5 ^ xs.length := by
  intro xs
  induction xs with
  | nil => intro _; simp [dotProd, pows]
  | cons c cs ih =>
    intro h
    have hc : c < 5 := h c (List.mem_cons_self _ _)
    have ihlt := ih (fun d hd => h d (List.mem_cons_of_mem _ hd))
    show dotProd (c :: cs) (pows (cs.length + 1)) < 5 ^ (cs.length + 1)
    rw [show pows (cs.length + 1) = 5 ^ cs.length :: pows cs.length from rfl, dotProd_cons]
    calc c * 5 ^ cs.length + dotProd cs (pows cs.length)
        < c * 5 ^ cs.length + 5 ^ cs.length := Nat.add_lt_add_left ihlt _
      _ = (c + 1) * 5 ^ cs.length := by ring
      _ ≤ 5 * 5 ^ cs.length := Nat.mul_le_mul_right _ (by omega)
      _ = 5 ^ (cs.length + 1) := by ring

theorem convolveValidAux_length (a v : List Nat) :
    (convolveValidAux a v).length = a.length + 1 - v.length := by
  simp [convolveValidAux]

theorem convolveValidAux_getElem? (a v : List Nat) {j : Nat}
    (h : j < a.length + 1 - v.length) :
    (convolveValidAux a v)[j]? = some (((List.range v.length).map (fun t =>
      a.getD (j + t) 0 * v.getD (v.length - 1 - t) 0)).sum) := by
  unfold convolveValidAux
  rw [List.getElem?_map, List.getElem?_range h]
  rfl

theorem toKmersFn_length {k : Nat} (x : List Nat) (h1 : 1 ≤ k) (h2 : k ≤ x.length) :
    (toKmersFn k x).length = x.length - k + 1 := by
  unfold toKmersFn
  by_cases hk : 1 < k
  · rw [if_pos hk]
    unfold convolveValid
    rw [if_neg (by rw [kmer_kernel_length]; omega)]
    rw [convolveValidAux_length, kmer_kernel_length]
    omega
  · rw [if_neg hk]
    omega

theorem toKmersFn_one (x : List Nat) : toKmersFn 1 x = x := rfl

theorem toKmersFn_getElem? {k : Nat} (x : List Nat) (h1 : 2 ≤ k) (h2 : k ≤ x.length)
    {j : Nat} (hj : j < x.length - k + 1) :
    (toKmersFn k x)[j]? = some (dotProd ((x.drop j).take k) ((kmer_kernel k).reverse)) := by
  unfold toKmersFn
  rw [if_pos (by omega)]
  unfold convolveValid
  rw [if_neg (by rw [kmer_kernel_length]; omega)]
  rw [convolveValidAux_getElem? x (kmer_kernel k) (by rw [kmer_kernel_length]; omega)]
  simp only [kmer_kernel_length]
  rw [kmer_kernel_reverse, convEntry_eq_dotProd k j x (by omega)]

theorem convolveValidAux_zero {y : Nat} (a v : List Nat)
    (h : (∀ c ∈ a, c = 0) ∨ (∀ c ∈ v, c = 0)) (hmem : y ∈ convolveValidAux a v) :
    y = 0 := by
  unfold convolveValidAux at hmem
  obtain ⟨j, _, hjy⟩ := List.mem_map.1 hmem
  rw [← hjy]
  apply List.sum_eq_zero
  intro z hz2
  obtain ⟨t, _, htz⟩ := List.mem_map.1 hz2
  rw [← htz]
  rcases h with h | h
  · rw [getD_zero_of_all_zero h, Nat.zero_mul]
  · rw [getD_zero_of_all_zero h, Nat.mul_zero]

theorem toKmersFn_zero {k : Nat} (x : List Nat) (hz : ∀ c ∈ x, c = 0) :
    ∀ y ∈ toKmersFn k x, y = 0 := by
  intro y hy
  unfold toKmersFn at hy
  by_cases hk : 1 < k
  · rw [if_pos hk] at hy
    unfold convolveValid at hy
    by_cases hswap : x.length < (kmer_kernel k).length
    · rw [if_pos hswap] at hy
      exact convolveValidAux_zero _ _ (Or.inr hz) hy
    · rw [if_neg hswap] at hy
      exact convolveValidAux_zero _ _ (Or.inl hz) hy
  · rw [if_neg hk] at hy
    exact hz y hy

theorem batchToKmersAux_spec {W k : Nat} (h1 : 1 ≤ k) (h2 : k ≤ W)
    (batch : List (List Nat)) (hrows : ∀ row ∈ batch, row.length = W) :
    ∃ out, batchToKmersAux W k batch = some out ∧ out.length = batch.length ∧
      ∀ row ∈ out, row.length = W - k + 1 := by
  have hneg : ¬((W : Int) - (k : Int) + 1 < 0) := by omega
  have htgt : ((W : Int) - (k : Int) + 1).toNat = W - k + 1 := by omega
  have hrow : ∀ row ∈ batch,
      npBroadcastRow ((W : Int) - (k : Int) + 1).toNat 0 (toKmersFn k row)
        = some (toKmersFn k row) := by
    intro row hr
    apply npBroadcastRow_of_length
    rw [toKmersFn_length row h1 (by rw [hrows row hr]; exact h2), hrows row hr, htgt]
  obtain ⟨out, hout⟩ := optMap_isSome
    (fun row => npBroadcastRow ((W : Int) - (k : Int) + 1).toNat 0 (toKmersFn k row))
    batch (fun row hr => by simp only []; rw [hrow row hr]; rfl)
  refine ⟨out, ?_, ?_, ?_⟩
  · unfold batchToKmersAux
    rw [if_neg hneg]
    exact hout
  · exact ((optMap_some_forall₂ _ _ _).1 hout).length_eq.symm
  · intro row hr
    obtain ⟨x, hx, hfx⟩ := forall₂_mem_right ((optMap_some_forall₂ _ _ _).1 hout) row hr
    have := npBroadcastRow_some hfx
    omega

theorem zipWith_forall₂ {α β γ : Type} {P : α → γ → Prop} (f : α → β → γ) :
    ∀ (as : List α) (bs : List β), as.length = bs.length →
      (∀ a ∈ as, ∀ b ∈ bs, P a (f a b)) →
      List.Forall₂ P as (List.zipWith f as bs) := by
  intro as
  induction as with
  | nil => intro bs _ _; exact List.Forall₂.nil
  | cons a as ih =>
    intro bs hlen hp
    cases bs with
    | nil => cases hlen
    | cons b bs =>
      rw [List.zipWith_cons_cons]
      exact List.Forall₂.cons
        (hp a (List.mem_cons_self _ _) b (List.mem_cons_self _ _))
        (ih bs (by simpa using hlen)
          (fun x hx y hy => hp x (List.mem_cons_of_mem _ hx) y (List.mem_cons_of_mem _ hy)))

theorem forall₂_getElem?_left {α β : Type} {R : α → β → Prop} :
    ∀ {a : List α} {b : List β}, List.Forall₂ R a b →
      ∀ {i : Nat} {x : α}, a[i]? = some x → ∃ y, b[i]? = some y ∧ R x y := by
  intro a b h
  induction h with
  | nil => intro i x hx; cases hx
  | cons hxy htail ih =>
    intro i x hx
    cases i with
    | zero =>
      rw [List.getElem?_cons_zero] at hx
      cases hx; exact ⟨_, List.getElem?_cons_zero, hxy⟩
    | succ m =>
      obtain ⟨y, hy, hr⟩ := ih (by simpa using hx)
      exact ⟨y, by simpa using hy, hr⟩

theorem forall₂_replicate {α β : Type} {R : α → β → Prop} {c : α} :
    ∀ (bs : List β), (∀ b ∈ bs, R c b) → List.Forall₂ R (List.replicate bs.length c) bs := by
  intro bs
  induction bs with
  | nil => intro _; exact List.Forall₂.nil
  | cons b bs ih =>
    intro h
    rw [List.length_cons, List.replicate_succ]
    exact List.Forall₂.cons (h b (List.mem_cons_self _ _))
      (ih (fun x hx => h x (List.mem_cons_of_mem _ hx)))

theorem offsetVal_bounds {u : ℚ} {L W : Nat} (h0 : 0 ≤ u) (h1 : u < 1) (hW : W ≤ L) :
    0 ≤ ratTrunc (u * ((L : ℚ) - (W : ℚ) + 1)) ∧
      ratTrunc (u * ((L : ℚ) - (W : ℚ) + 1)) ≤ (L : Int) - (W : Int) ∧
      ratTrunc (u * ((L : ℚ) - (W : ℚ) + 1)) = ⌊u * ((L : ℚ) - (W : ℚ) + 1)⌋ := by
  have hWL : (W : ℚ) ≤ (L : ℚ) := by exact_mod_cast hW
  have hM : (0 : ℚ) < (L : ℚ) - (W : ℚ) + 1 := by linarith
  have hprod : 0 ≤ u * ((L : ℚ) - (W : ℚ) + 1) := mul_nonneg h0 (le_of_lt hM)
  have heq : ratTrunc (u * ((L : ℚ) - (W : ℚ) + 1)) = ⌊u * ((L : ℚ) - (W : ℚ) + 1)⌋ :=
    ratTrunc_of_nonneg hprod
  refine ⟨heq ▸ Int.floor_nonneg.2 hprod, ?_, heq⟩
  rw [heq]
  have hlt : u * ((L : ℚ) - (W : ℚ) + 1) < (L : ℚ) - (W : ℚ) + 1 :=
    mul_lt_of_lt_one_left hM h1
  have : ⌊u * ((L : ℚ) - (W : ℚ) + 1)⌋ < (L : Int) - (W : Int) + 1 := by
    apply Int.floor_lt.2
    push_cast
    exact hlt
  omega

theorem shuffle_config_fields (g : DnaSequenceGenerator) :
    g.shuffle.samples = g.samples ∧ g.shuffle.sample_lengths = g.sample_lengths ∧
      g.shuffle.num_samples = g.num_samples ∧
      g.shuffle.sequence_length = g.sequence_length ∧ g.shuffle.kmer = g.kmer ∧
      g.shuffle.augment = g.augment ∧ g.shuffle.batch_size = g.batch_size ∧
      g.shuffle.batches_per_epoch = g.batches_per_epoch ∧
      g.shuffle.balance = g.balance ∧ g.shuffle.labels = g.labels :=
  ⟨rfl, rfl, rfl, rfl, rfl, rfl, rfl, rfl, rfl, rfl⟩

theorem shuffle_eq (g : DnaSequenceGenerator) :
    g.shuffle = { g with
      rng := (seqDraw3 g).2
      sample_indices := (seqDraw1 g).1
      sequence_indices := List.zipWith
        (List.zipWith (fun s u => (ratTrunc ((g.sample_lengths.getD s 0 : ℚ) * u)).toNat))
        (seqDraw1 g).1 (seqDraw2 g).1
      augment_offsets := (seqDraw3 g).1 } := rfl

theorem shuffle_rng_wf (g : DnaSequenceGenerator) (hr : g.rng.Wf) : g.shuffle.rng.Wf := by
  rw [shuffle_eq]
  show (seqDraw3 g).2.Wf
  have h1 := drawMat_spec (rngIntegers g.num_samples) (fun _ => True)
    (fun r hr2 => ⟨trivial, hr2⟩) g.batches_per_epoch g.batch_size g.rng hr
  have h2 := drawMat_spec rngUniform (fun _ => True)
    (fun r hr2 => ⟨trivial, hr2⟩) g.batches_per_epoch g.batch_size (seqDraw1 g).2 h1.2.2
  unfold seqDraw3
  by_cases ha : g.augment = true
  · rw [if_pos ha]
    exact (drawMat_spec rngUniform (fun _ => True)
      (fun r hr2 => ⟨trivial, hr2⟩) g.batches_per_epoch g.batch_size (seqDraw2 g).2 h2.2.2).2.2
  · rw [if_neg ha]
    exact h2.2.2

theorem shuffle_preserves_config {g : DnaSequenceGenerator} (hc : SeqConfigWf g) :
    SeqConfigWf g.shuffle := by
  obtain ⟨h1, h2, h3, h4, h5, h6, h7⟩ := hc
  exact ⟨h1, h2, h3, h4, h5, h6, shuffle_rng_wf g h7⟩

theorem getD_eq_of_lt {l : List Nat} {i : Nat} (h : i < l.length) : l.getD i 0 = l[i] := by
  rw [List.getD_eq_getElem?_getD, List.getElem?_eq_getElem h]
  rfl

theorem shuffle_table {g : DnaSequenceGenerator} (hc : SeqConfigWf g) :
    SeqTableWf g.shuffle := by
  obtain ⟨hnum, hne, hlens, _, _, _, hrng⟩ := hc
  have hpos : 0 < g.num_samples := by
    rw [hnum]
    exact List.length_pos.2 hne
  have h1 : (seqDraw1 g).1.length = g.batches_per_epoch ∧
      (∀ row ∈ (seqDraw1 g).1, row.length = g.batch_size ∧ ∀ s ∈ row, s < g.num_samples) ∧
      (seqDraw1 g).2.Wf :=
    drawMat_spec (rngIntegers g.num_samples) (fun s => s < g.num_samples)
      (fun r hr2 => rngIntegers_spec hr2 hpos) g.batches_per_epoch g.batch_size g.rng hrng
  have h2 : (seqDraw2 g).1.length = g.batches_per_epoch ∧
      (∀ row ∈ (seqDraw2 g).1, row.length = g.batch_size ∧ ∀ u ∈ row, 0 ≤ u ∧ u < 1) ∧
      (seqDraw2 g).2.Wf :=
    drawMat_spec rngUniform (fun u => 0 ≤ u ∧ u < 1)
      (fun r hr2 => rngUniform_spec hr2) g.batches_per_epoch g.batch_size (seqDraw1 g).2 h1.2.2
  rw [shuffle_eq]
  refine ⟨h1.1, h1.2.1, ?_, ?_⟩
  · show List.Forall₂ (List.Forall₂ (fun s q => q < g.sample_lengths.getD s 0))
      (seqDraw1 g).1
      (List.zipWith
        (List.zipWith (fun s u => (ratTrunc ((g.sample_lengths.getD s 0 : ℚ) * u)).toNat))
        (seqDraw1 g).1 (seqDraw2 g).1)
    apply zipWith_forall₂
    · rw [h1.1, h2.1]
    · intro srow hsrow urow hurow
      apply zipWith_forall₂
      · rw [(h1.2.1 srow hsrow).1, (h2.2.1 urow hurow).1]
      · intro s hs u hu
        have hsn : s < g.num_samples := (h1.2.1 srow hsrow).2 s hs
        have hslt : s < g.sample_lengths.length := by
          rw [hlens.length_eq]
          omega
        obtain ⟨a, ha, hla⟩ := forall₂_getElem?_left hlens (List.getElem?_eq_getElem hslt)
        have hlpos : 0 < g.sample_lengths.getD s 0 := by
          rw [getD_eq_of_lt hslt]
          exact hla.1
        have hub := (h2.2.1 urow hurow).2 u hu
        show (ratTrunc ((g.sample_lengths.getD s 0 : ℚ) * u)).toNat < g.sample_lengths.getD s 0
        rw [mul_comm]
        exact ratTrunc_mul_toNat_lt hub.1 hub.2 hlpos
  · intro ha
    have ha2 : g.augment = true := ha
    have h3 : (drawMat rngUniform g.batches_per_epoch g.batch_size (seqDraw2 g).2).1.length
          = g.batches_per_epoch ∧
        (∀ row ∈ (drawMat rngUniform g.batches_per_epoch g.batch_size (seqDraw2 g).2).1,
          row.length = g.batch_size ∧ ∀ u ∈ row, 0 ≤ u ∧ u < 1) ∧
        (drawMat rngUniform g.batches_per_epoch g.batch_size (seqDraw2 g).2).2.Wf :=
      drawMat_spec rngUniform (fun u => 0 ≤ u ∧ u < 1)
        (fun r hr2 => rngUniform_spec hr2) g.batches_per_epoch g.batch_size (seqDraw2 g).2 h2.2.2
    show (seqDraw3 g).1.length = g.batches_per_epoch ∧
      ∀ row ∈ (seqDraw3 g).1, row.length = g.batch_size ∧ ∀ u ∈ row, 0 ≤ u ∧ u < 1
    unfold seqDraw3
    rw [if_pos ha2]
    exact ⟨h3.1, h3.2.1⟩

theorem init_inv (samples : List Archive) (W k bs bpe : Nat) (aug bal : Bool)
    (labels : Option DnaLabelType) (r : RNG)
    (hne : samples ≠ []) (hane : ∀ a ∈ samples, a ≠ [])
    (hseq : ∀ a ∈ samples, ∀ s ∈ a, W ≤ s.length)
    (hk1 : 1 ≤ k) (hkW : k ≤ W) (hr : r.Wf) :
    SeqInv (DnaSequenceGenerator.init samples W k bs bpe aug bal labels r) := by
  have hmapne : samples.map List.length ≠ [] := by
    intro h
    exact hne (List.map_eq_nil_iff.1 h)
  have hminpos : bal = true → 0 < natMin (samples.map List.length) := by
    intro _
    obtain ⟨a, ha, hla⟩ := List.mem_map.1 (natMin_mem hmapne)
    rw [← hla]
    exact List.length_pos.2 (hane a ha)
  have hlens : List.Forall₂ (fun l (a : Archive) => 0 < l ∧ l ≤ a.length)
      (if bal then List.replicate (samples.map List.length).length (natMin (samples.map List.length))
        else samples.map List.length) samples := by
    by_cases hb : bal
    · rw [if_pos hb, List.length_map]
      apply forall₂_replicate
      intro a ha
      exact ⟨hminpos hb, natMin_le (List.mem_map_of_mem List.length ha)⟩
    · rw [if_neg hb]
      rw [List.forall₂_map_left_iff]
      apply List.forall₂_same.2
      intro a ha
      exact ⟨List.length_pos.2 (hane a ha), le_refl _⟩
  have hcfg : SeqConfigWf (DnaSequenceGenerator.mk samples
      (if bal then List.replicate (samples.map List.length).length (natMin (samples.map List.length))
        else samples.map List.length)
      samples.length W k aug bs bpe bal labels r [] [] []) :=
    ⟨rfl, hne, hlens, hseq, hk1, hkW, hr⟩
  refine ⟨shuffle_preserves_config hcfg, shuffle_table hcfg, ?_⟩
  intro hb
  have hb2 : bal = true := hb
  show (if bal then List.replicate (samples.map List.length).length (natMin (samples.map List.length))
      else samples.map List.length)
    = List.replicate samples.length (natMin (samples.map List.length))
  rw [if_pos hb2, List.length_map]

theorem epoch_end_inv {g : DnaSequenceGenerator} (h : SeqInv g) : SeqInv g.on_epoch_end :=
  ⟨shuffle_preserves_config h.1, shuffle_table h.1, fun hb => h.2.2 hb⟩

theorem seqReachable_inv {g : DnaSequenceGenerator} (h : SeqReachable g) : SeqInv g := by
  induction h with
  | base samples W k bs bpe aug bal labels r h1 h2 h3 h4 h5 h6 =>
    exact init_inv samples W k bs bpe aug bal labels r h1 h2 h3 h4 h5 h6
  | step g _ ih => exact epoch_end_inv ih

theorem seqInv_offset {g : DnaSequenceGenerator} (h : SeqInv g) {i : Int}
    (h1 : -(g.batches_per_epoch : Int) ≤ i) (h2 : i < g.batches_per_epoch)
    {idx L : Nat} (hidx : idx < g.batch_size) (hL : g.sequence_length ≤ L) :
    ∃ o, g.augment_offset_fn L i idx = some o ∧ 0 ≤ o ∧
      o + (g.sequence_length : Int) ≤ (L : Int) := by
  by_cases ha : g.augment = true
  · obtain ⟨haoL, haoRows⟩ := h.2.1.2.2.2 ha
    have hplt : npPos g.batches_per_epoch i < g.batches_per_epoch := npPos_lt h1 h2
    have hp1 : npPos g.batches_per_epoch i < g.augment_offsets.length := by
      rw [haoL]; exact hplt
    have hurow : g.augment_offsets[npPos g.batches_per_epoch i]?
        = some g.augment_offsets[npPos g.batches_per_epoch i] :=
      List.getElem?_eq_getElem hp1
    have hmem := List.getElem?_mem hurow
    obtain ⟨hrowlen, hrowvals⟩ := haoRows _ hmem
    have hidx2 : idx < (g.augment_offsets[npPos g.batches_per_epoch i]).length := by
      rw [hrowlen]; exact hidx
    have hu : (g.augment_offsets[npPos g.batches_per_epoch i])[idx]?
        = some (g.augment_offsets[npPos g.batches_per_epoch i])[idx] :=
      List.getElem?_eq_getElem hidx2
    have huv := hrowvals _ (List.getElem?_mem hu)
    obtain ⟨hge, hle, _⟩ := offsetVal_bounds huv.1 huv.2 hL
    refine ⟨_, ?_, hge, by omega⟩
    unfold DnaSequenceGenerator.augment_offset_fn
    rw [if_pos ha]
    unfold DnaSequenceGenerator.compute_augmented_offset
    rw [npIndex_eq_getElem?, haoL, hurow]
    simp only [Option.some_bind, hu, Option.map_some']
  · refine ⟨0, ?_, le_refl 0, ?_⟩
    · unfold DnaSequenceGenerator.augment_offset_fn
      rw [if_neg ha]
    · omega

theorem seqInv_generate_batch {g : DnaSequenceGenerator} (h : SeqInv g) {i : Int}
    (h1 : -(g.batches_per_epoch : Int) ≤ i) (h2 : i < g.batches_per_epoch) :
    ∃ b, g.generate_batch i = some b ∧ b.length = g.batch_size ∧
      ∀ row ∈ b, row.length = g.sequence_length := by
  have hnum := h.1.1
  have hlens := h.1.2.2.1
  have hseq := h.1.2.2.2.1
  have hsiL := h.2.1.1
  have hsiR := h.2.1.2.1
  have hf2 := h.2.1.2.2.1
  have hplt : npPos g.batches_per_epoch i < g.batches_per_epoch := npPos_lt h1 h2
  have hp1 : npPos g.batches_per_epoch i < g.sample_indices.length := by
    rw [hsiL]; exact hplt
  have hsrow : g.sample_indices[npPos g.batches_per_epoch i]?
      = some g.sample_indices[npPos g.batches_per_epoch i] := List.getElem?_eq_getElem hp1
  set srow := g.sample_indices[npPos g.batches_per_epoch i] with hsrowdef
  have hsiIdx : npIndex g.sample_indices i = some srow := by
    rw [npIndex_eq_getElem?, hsiL]; exact hsrow
  have hsrowmem : srow ∈ g.sample_indices := List.getElem?_mem hsrow
  obtain ⟨hsrowlen, hsrowvals⟩ := hsiR srow hsrowmem
  have hp2 : npPos g.batches_per_epoch i < g.sequence_indices.length := by
    rw [← hf2.length_eq, hsiL]; exact hplt
  have hqrow : g.sequence_indices[npPos g.batches_per_epoch i]?
      = some g.sequence_indices[npPos g.batches_per_epoch i] := List.getElem?_eq_getElem hp2
  set qrow := g.sequence_indices[npPos g.batches_per_epoch i] with hqrowdef
  have hqiIdx : npIndex g.sequence_indices i = some qrow := by
    rw [npIndex_eq_getElem?, hf2.length_eq.symm.trans hsiL]
    exact hqrow
  have hrowF : List.Forall₂ (fun s q => q < g.sample_lengths.getD s 0) srow qrow :=
    forall₂_getElem? hf2 hsrow hqrow
  have key : ∀ idx ∈ List.range g.batch_size, ∃ row,
      (do
        let s ← srow[idx]?
        let q ← qrow[idx]?
        let archive ← g.samples[s]?
        let sequence ← archive[q]?
        let offset ← g.augment_offset_fn sequence.length i idx
        npBroadcastRow g.sequence_length 0 (g.clip_sequence sequence offset)) = some row ∧
      row.length = g.sequence_length := by
    intro idx hidxmem
    have hidx : idx < g.batch_size := List.mem_range.1 hidxmem
    have hidxs : idx < srow.length := by rw [hsrowlen]; exact hidx
    have hs : srow[idx]? = some srow[idx] := List.getElem?_eq_getElem hidxs
    set s := srow[idx] with hsdef
    have hidxq : idx < qrow.length := by rw [← hrowF.length_eq]; exact hidxs
    have hq : qrow[idx]? = some qrow[idx] := List.getElem?_eq_getElem hidxq
    set q := qrow[idx] with hqdef
    have hPq : q < g.sample_lengths.getD s 0 := forall₂_getElem? hrowF hs hq
    have hsn : s < g.num_samples := hsrowvals s (List.getElem?_mem hs)
    have hslt : s < g.samples.length := by omega
    have harch : g.samples[s]? = some g.samples[s] := List.getElem?_eq_getElem hslt
    set archive := g.samples[s] with harchdef
    have hsltl : s < g.sample_lengths.length := by rw [hlens.length_eq]; exact hslt
    have hpair : 0 < g.sample_lengths[s] ∧ g.sample_lengths[s] ≤ archive.length :=
      forall₂_getElem? hlens (List.getElem?_eq_getElem hsltl) harch
    have hql : q < archive.length := by
      rw [getD_eq_of_lt hsltl] at hPq
      omega
    have hseqq : archive[q]? = some archive[q] := List.getElem?_eq_getElem hql
    set sequence := archive[q] with hseqdef
    have hWL : g.sequence_length ≤ sequence.length :=
      hseq archive (List.getElem?_mem harch) sequence (List.getElem?_mem hseqq)
    obtain ⟨o, ho, hge, hle⟩ := seqInv_offset h h1 h2 hidx hWL
    have hclip : (g.clip_sequence sequence o).length = g.sequence_length := by
      unfold DnaSequenceGenerator.clip_sequence
      exact pySlice_length sequence o g.sequence_length hge (by omega)
    refine ⟨g.clip_sequence sequence o, ?_, hclip⟩
    simp only [Option.bind_eq_bind, hs, Option.some_bind, hq, harch, hseqq, ho]
    exact npBroadcastRow_of_length hclip
  obtain ⟨b, hb⟩ := optMap_isSome
    (fun idx => do
      let s ← srow[idx]?
      let q ← qrow[idx]?
      let archive ← g.samples[s]?
      let sequence ← archive[q]?
      let offset ← g.augment_offset_fn sequence.length i idx
      npBroadcastRow g.sequence_length 0 (g.clip_sequence sequence offset))
    (List.range g.batch_size)
    (fun idx hidxmem => by
      simp only []
      obtain ⟨row, hrow, _⟩ := key idx hidxmem
      rw [hrow]; rfl)
  refine ⟨b, ?_, ?_, ?_⟩
  · unfold DnaSequenceGenerator.generate_batch
    rw [hsiIdx, hqiIdx]
    simp only [Option.bind_eq_bind, Option.some_bind]
    exact hb
  · rw [((optMap_some_forall₂ _ _ _).1 hb).length_eq.symm, List.length_range]
  · intro row hrowmem
    obtain ⟨idx, hidxmem, hfeq⟩ :=
      forall₂_mem_right ((optMap_some_forall₂ _ _ _).1 hb) row hrowmem
    obtain ⟨row2, hrow2, hlen2⟩ := key idx hidxmem
    rw [hfeq] at hrow2
    cases hrow2
    exact hlen2

theorem seqInv_getItem_isSome {g : DnaSequenceGenerator} (h : SeqInv g) {i : Int}
    (h1 : -(g.batches_per_epoch : Int) ≤ i) (h2 : i < g.batches_per_epoch) :
    (g.getItem i).isSome := by
  obtain ⟨b, hgb, hblen, hbrows⟩ := seqInv_generate_batch h h1 h2
  obtain ⟨out, hout, houtlen, houtrows⟩ :=
    batchToKmersAux_spec h.1.2.2.2.2.1 h.1.2.2.2.2.2.1 b hbrows
  have hbk : g.batch_to_kmersO b = some out := hout
  have hsi : ∃ srow, npIndex g.sample_indices i = some srow := by
    rw [npIndex_eq_getElem?, h.2.1.1]
    exact ⟨_, List.getElem?_eq_getElem (by rw [h.2.1.1]; exact npPos_lt h1 h2)⟩
  obtain ⟨srow, hsrowIdx⟩ := hsi
  unfold DnaSequenceGenerator.getItem
  rw [hgb]
  simp only [Option.some_bind]
  unfold DnaSequenceGenerator.post_process_batch
  cases hl : g.labels with
  | none => rw [hbk]; rfl
  | some lt =>
    cases lt with
    | SampleIds =>
      rw [hbk]
      simp only [Option.bind_eq_bind, Option.some_bind]
      rw [hsrowIdx]
      rfl
    | OneMer => rw [hbk]; rfl
    | KMer => rw [hbk]; rfl

theorem seq_getItem_none {g : DnaSequenceGenerator}
    (hL : g.sample_indices.length = g.batches_per_epoch) {i : Int}
    (h : ¬(-(g.batches_per_epoch : Int) ≤ i ∧ i < g.batches_per_epoch)) :
    g.getItem i = none := by
  have hnone : npIndex g.sample_indices i = none :=
    npIndex_eq_none_of (by rw [hL]; exact h)
  unfold DnaSequenceGenerator.getItem DnaSequenceGenerator.generate_batch
  rw [hnone]
  rfl

theorem samShuffle_eq (g : DnaSampleGenerator) :
    g.shuffle = match (samDraw2 g).1 with
      | none => none
      | some qi => some { g with
          rng := (samDraw3 g).2
          sample_indices := (samDraw1 g).1
          sequence_indices := qi
          augment_offsets := (samDraw3 g).1 } := rfl

theorem samDraw2_spec {g : DnaSampleGenerator} (hc : SampleConfigWf g) :
    (∀ qi, (samDraw2 g).1 = some qi →
      List.Forall₂ (List.Forall₂ (fun s keys => keys.length = g.subsample_length ∧
        keys.Nodup ∧ ∀ q ∈ keys, q < g.sample_lengths.getD s 0))
        (samDraw1 g).1 qi) ∧
      (samDraw2 g).2.Wf := by
  obtain ⟨hnum, hne, hlens, _, _, _, hrng⟩ := hc
  have hpos : 0 < g.num_samples := by
    rw [hnum]; exact List.length_pos.2 hne
  have h1 : (samDraw1 g).1.length = g.batches_per_epoch ∧
      (∀ row ∈ (samDraw1 g).1, row.length = g.batch_size ∧ ∀ s ∈ row, s < g.num_samples) ∧
      (samDraw1 g).2.Wf :=
    drawMat_spec (rngIntegers g.num_samples) (fun s => s < g.num_samples)
      (fun r hr2 => rngIntegers_spec hr2 hpos) g.batches_per_epoch g.batch_size g.rng hrng
  have h2 := mapListState_spec
    (fun row r => mapListState (fun n r2 => rngChoice n g.subsample_length r2) row r)
    (List.Forall₂ (fun n keys => keys.length = g.subsample_length ∧ keys.Nodup ∧
      ∀ q ∈ keys, q < n))
    (fun row r hr => mapListState_spec (fun n r2 => rngChoice n g.subsample_length r2)
      (fun n keys => keys.length = g.subsample_length ∧ keys.Nodup ∧ ∀ q ∈ keys, q < n)
      (fun n r2 hr2 => rngChoice_spec_any hr2)
      row r hr)
    (samLengths g) (samDraw1 g).2 h1.2.2
  refine ⟨?_, h2.2⟩
  intro qi hqi
  have hF := h2.1 qi hqi
  unfold samLengths at hF
  rw [List.forall₂_map_left_iff] at hF
  refine hF.imp ?_
  intro srow krow hrow
  rw [List.forall₂_map_left_iff] at hrow
  exact hrow

theorem samDraw2_isSome {g : DnaSampleGenerator} (hc : SampleConfigWf g) :
    (samDraw2 g).1.isSome := by
  obtain ⟨hnum, hne, hlens, _, _, _, hrng⟩ := hc
  have hpos : 0 < g.num_samples := by
    rw [hnum]; exact List.length_pos.2 hne
  have h1 : (samDraw1 g).1.length = g.batches_per_epoch ∧
      (∀ row ∈ (samDraw1 g).1, row.length = g.batch_size ∧ ∀ s ∈ row, s < g.num_samples) ∧
      (samDraw1 g).2.Wf :=
    drawMat_spec (rngIntegers g.num_samples) (fun s => s < g.num_samples)
      (fun r hr2 => rngIntegers_spec hr2 hpos) g.batches_per_epoch g.batch_size g.rng hrng
  apply mapListState_isSome
    (fun row r => mapListState (fun n r2 => rngChoice n g.subsample_length r2) row r)
    (fun row => ∀ n ∈ row, g.subsample_length ≤ n)
  · intro row hgoodrow r hr
    constructor
    · apply mapListState_isSome (fun n r2 => rngChoice n g.subsample_length r2)
        (fun n => g.subsample_length ≤ n)
      · intro n hn r2 hr2
        constructor
        · obtain ⟨keys, hk, _⟩ := rngChoice_some hr2 hn
          rw [hk]; rfl
        · exact (rngChoice_spec_any hr2).2
      · exact hgoodrow
      · exact hr
    · exact (mapListState_spec (fun n r2 => rngChoice n g.subsample_length r2)
        (fun n keys => keys.length = g.subsample_length ∧ keys.Nodup ∧ ∀ q ∈ keys, q < n)
        (fun n r2 hr2 => rngChoice_spec_any hr2) row r hr).2
  · intro row hrowmem
    unfold samLengths at hrowmem
    obtain ⟨srow, hsrowmem, hmap⟩ := List.mem_map.1 hrowmem
    intro n hn
    rw [← hmap] at hn
    obtain ⟨s, hsmem, hval⟩ := List.mem_map.1 hn
    have hsn : s < g.num_samples := (h1.2.1 srow hsrowmem).2 s hsmem
    have hslt : s < g.sample_lengths.length := by
      rw [hlens.length_eq, ← hnum]; exact hsn
    obtain ⟨a, ha, hla⟩ := forall₂_getElem?_left hlens (List.getElem?_eq_getElem hslt)
    rw [← hval, getD_eq_of_lt hslt]
    exact hla.2.2
  · exact h1.2.2

theorem samShuffle_rng_wf {g : DnaSampleGenerator} (hc : SampleConfigWf g) :
    (samDraw3 g).2.Wf := by
  have h2 := (samDraw2_spec hc).2
  unfold samDraw3
  by_cases ha : g.augment = true
  · rw [if_pos ha]
    exact (drawMat3_spec rngUniform (fun _ => True) (fun r hr2 => ⟨trivial, hr2⟩)
      g.batches_per_epoch g.batch_size g.subsample_length (samDraw2 g).2 h2).2.2
  · rw [if_neg ha]
    exact h2

theorem samShuffle_some_inv {g : DnaSampleGenerator} (hc : SampleConfigWf g)
    (hbal : g.balance = true →
      g.sample_lengths = List.replicate g.samples.length (natMin (g.samples.map List.length))) :
    ∀ g2, g.shuffle = some g2 → SampleInv g2 := by
  intro g2 hg2
  rw [samShuffle_eq] at hg2
  cases hqi : (samDraw2 g).1 with
  | none => rw [hqi] at hg2; cases hg2
  | some qi =>
    rw [hqi] at hg2
    cases hg2
    obtain ⟨hnum, hne, hlens, hseq, hk1, hkW, hrng⟩ := hc
    have hpos : 0 < g.num_samples := by
      rw [hnum]; exact List.length_pos.2 hne
    have h1 : (samDraw1 g).1.length = g.batches_per_epoch ∧
        (∀ row ∈ (samDraw1 g).1, row.length = g.batch_size ∧ ∀ s ∈ row, s < g.num_samples) ∧
        (samDraw1 g).2.Wf :=
      drawMat_spec (rngIntegers g.num_samples) (fun s => s < g.num_samples)
        (fun r hr2 => rngIntegers_spec hr2 hpos) g.batches_per_epoch g.batch_size g.rng hrng
    refine ⟨⟨hnum, hne, hlens, hseq, hk1, hkW,
        samShuffle_rng_wf ⟨hnum, hne, hlens, hseq, hk1, hkW, hrng⟩⟩,
      ⟨h1.1, h1.2.1, (samDraw2_spec ⟨hnum, hne, hlens, hseq, hk1, hkW, hrng⟩).1 qi hqi, ?_⟩,
      hbal⟩
    intro ha
    have ha2 : g.augment = true := ha
    have h3 := drawMat3_spec rngUniform (fun u => 0 ≤ u ∧ u < 1)
      (fun r hr2 => rngUniform_spec hr2) g.batches_per_epoch g.batch_size g.subsample_length
      (samDraw2 g).2 (samDraw2_spec ⟨hnum, hne, hlens, hseq, hk1, hkW, hrng⟩).2
    show (samDraw3 g).1.length = g.batches_per_epoch ∧
      ∀ mat ∈ (samDraw3 g).1, mat.length = g.batch_size ∧
        ∀ row ∈ mat, row.length = g.subsample_length ∧ ∀ u ∈ row, 0 ≤ u ∧ u < 1
    unfold samDraw3
    rw [if_pos ha2]
    exact ⟨h3.1, h3.2.1⟩

theorem samShuffle_isSome {g : DnaSampleGenerator} (hc : SampleConfigWf g) :
    g.shuffle.isSome := by
  rw [samShuffle_eq]
  obtain ⟨qi, hqi⟩ := Option.isSome_iff_exists.1 (samDraw2_isSome hc)
  rw [hqi]
  rfl

theorem samInit_pre (samples : List Archive) (sub W k bs bpe : Nat) (aug bal : Bool)
    (labels : Option DnaLabelType) (r : RNG)
    (hne : samples ≠ []) (hane : ∀ a ∈ samples, a ≠ [])
    (hseq : ∀ a ∈ samples, ∀ s ∈ a, W ≤ s.length)
    (hsub : ∀ a ∈ samples, sub ≤ a.length)
    (hk1 : 1 ≤ k) (hkW : k ≤ W) (hr : r.Wf) :
    SampleConfigWf (DnaSampleGenerator.mk samples
      (if bal then List.replicate (samples.map List.length).length (natMin (samples.map List.length))
        else samples.map List.length)
      samples.length sub W k aug bs bpe bal labels r [] [] []) ∧
    (bal = true →
      (if bal then List.replicate (samples.map List.length).length (natMin (samples.map List.length))
        else samples.map List.length)
        = List.replicate samples.length (natMin (samples.map List.length))) := by
  have hmapne : samples.map List.length ≠ [] := by
    intro h
    exact hne (List.map_eq_nil_iff.1 h)
  have hminpos : bal = true → 0 < natMin (samples.map List.length) := by
    intro _
    obtain ⟨a, ha, hla⟩ := List.mem_map.1 (natMin_mem hmapne)
    rw [← hla]
    exact List.length_pos.2 (hane a ha)
  have hminsub : sub ≤ natMin (samples.map List.length) := by
    obtain ⟨a, ha, hla⟩ := List.mem_map.1 (natMin_mem hmapne)
    rw [← hla]
    exact hsub a ha
  have hlens : List.Forall₂ (fun l (a : Archive) => 0 < l ∧ l ≤ a.length ∧ sub ≤ l)
      (if bal then List.replicate (samples.map List.length).length (natMin (samples.map List.length))
        else samples.map List.length) samples := by
    by_cases hb : bal
    · rw [if_pos hb, List.length_map]
      apply forall₂_replicate
      intro a ha
      exact ⟨hminpos hb, natMin_le (List.mem_map_of_mem List.length ha), hminsub⟩
    · rw [if_neg hb]
      rw [List.forall₂_map_left_iff]
      apply List.forall₂_same.2
      intro a ha
      exact ⟨List.length_pos.2 (hane a ha), le_refl _, hsub a ha⟩
  refine ⟨⟨rfl, hne, hlens, hseq, hk1, hkW, hr⟩, ?_⟩
  intro hb
  rw [if_pos hb, List.length_map]

theorem samInit_isSome (samples : List Archive) (sub W k bs bpe : Nat) (aug bal : Bool)
    (labels : Option DnaLabelType) (r : RNG)
    (hne : samples ≠ []) (hane : ∀ a ∈ samples, a ≠ [])
    (hseq : ∀ a ∈ samples, ∀ s ∈ a, W ≤ s.length)
    (hsub : ∀ a ∈ samples, sub ≤ a.length)
    (hk1 : 1 ≤ k) (hkW : k ≤ W) (hr : r.Wf) :
    (DnaSampleGenerator.init samples sub W k bs bpe aug bal labels r).isSome :=
  samShuffle_isSome
    (samInit_pre samples sub W k bs bpe aug bal labels r hne hane hseq hsub hk1 hkW hr).1

theorem samInit_inv (samples : List Archive) (sub W k bs bpe : Nat) (aug bal : Bool)
    (labels : Option DnaLabelType) (r : RNG)
    (hne : samples ≠ []) (hane : ∀ a ∈ samples, a ≠ [])
    (hseq : ∀ a ∈ samples, ∀ s ∈ a, W ≤ s.length)
    (hsub : ∀ a ∈ samples, sub ≤ a.length)
    (hk1 : 1 ≤ k) (hkW : k ≤ W) (hr : r.Wf) :
    ∀ g2, DnaSampleGenerator.init samples sub W k bs bpe aug bal labels r = some g2 →
      SampleInv g2 := by
  have hpre := samInit_pre samples sub W k bs bpe aug bal labels r hne hane hseq hsub hk1 hkW hr
  exact samShuffle_some_inv hpre.1 hpre.2

theorem samEpoch_end_inv {g : DnaSampleGenerator} (h : SampleInv g) :
    ∀ g2, g.on_epoch_end = some g2 → SampleInv g2 :=
  samShuffle_some_inv h.1 h.2.2

theorem samEpoch_end_isSome {g : DnaSampleGenerator} (h : SampleInv g) :
    g.on_epoch_end.isSome :=
  samShuffle_isSome h.1

theorem samReachable_inv {g : DnaSampleGenerator} (h : SampleReachable g) : SampleInv g := by
  induction h with
  | base samples sub W k bs bpe aug bal labels r g2 h1 h2 h3 h4 h5 h6 h7 h8 =>
    exact samInit_inv samples sub W k bs bpe aug bal labels r h1 h2 h3 h4 h5 h6 h7 g2 h8
  | step g g2 _ hstep ih => exact samEpoch_end_inv ih g2 hstep

theorem samInv_offset {g : DnaSampleGenerator} (h : SampleInv g) {i : Int}
    (h1 : -(g.batches_per_epoch : Int) ≤ i) (h2 : i < g.batches_per_epoch)
    {idx j L : Nat} (hidx : idx < g.batch_size) (hj : j < g.subsample_length)
    (hL : g.sequence_length ≤ L) :
    ∃ o, g.augment_offset_fn L i idx j = some o ∧ 0 ≤ o ∧
      o + (g.sequence_length : Int) ≤ (L : Int) := by
  by_cases ha : g.augment = true
  · obtain ⟨haoL, haoMats⟩ := h.2.1.2.2.2 ha
    have hplt : npPos g.batches_per_epoch i < g.batches_per_epoch := npPos_lt h1 h2
    have hp1 : npPos g.batches_per_epoch i < g.augment_offsets.length := by
      rw [haoL]; exact hplt
    have hmat : g.augment_offsets[npPos g.batches_per_epoch i]?
        = some g.augment_offsets[npPos g.batches_per_epoch i] :=
      List.getElem?_eq_getElem hp1
    obtain ⟨hmatlen, hmatrows⟩ := haoMats _ (List.getElem?_mem hmat)
    have hidx2 : idx < (g.augment_offsets[npPos g.batches_per_epoch i]).length := by
      rw [hmatlen]; exact hidx
    have hrow : (g.augment_offsets[npPos g.batches_per_epoch i])[idx]?
        = some (g.augment_offsets[npPos g.batches_per_epoch i])[idx] :=
      List.getElem?_eq_getElem hidx2
    obtain ⟨hrowlen, hrowvals⟩ := hmatrows _ (List.getElem?_mem hrow)
    have hj2 : j < ((g.augment_offsets[npPos g.batches_per_epoch i])[idx]).length := by
      rw [hrowlen]; exact hj
    have hu : ((g.augment_offsets[npPos g.batches_per_epoch i])[idx])[j]?
        = some ((g.augment_offsets[npPos g.batches_per_epoch i])[idx])[j] :=
      List.getElem?_eq_getElem hj2
    have huv := hrowvals _ (List.getElem?_mem hu)
    obtain ⟨hge, hle, _⟩ := offsetVal_bounds huv.1 huv.2 hL
    refine ⟨_, ?_, hge, by omega⟩
    unfold DnaSampleGenerator.augment_offset_fn
    rw [if_pos ha]
    unfold DnaSampleGenerator.compute_augmented_offset
    rw [npIndex_eq_getElem?, haoL, hmat]
    simp only [Option.some_bind, hrow, hu, Option.map_some']
  · refine ⟨0, ?_, le_refl 0, ?_⟩
    · unfold DnaSampleGenerator.augment_offset_fn
      rw [if_neg ha]
    · omega

theorem samInv_generate_batch {g : DnaSampleGenerator} (h : SampleInv g) {i : Int}
    (h1 : -(g.batches_per_epoch : Int) ≤ i) (h2 : i < g.batches_per_epoch) :
    ∃ b, g.generate_batch i = some b ∧ b.length = g.batch_size ∧
      ∀ grp ∈ b, grp.length = g.subsample_length ∧
        ∀ row ∈ grp, row.length = g.sequence_length := by
  have hnum := h.1.1
  have hlens := h.1.2.2.1
  have hseq := h.1.2.2.2.1
  have hsiL := h.2.1.1
  have hsiR := h.2.1.2.1
  have hf2 := h.2.1.2.2.1
  have hplt : npPos g.batches_per_epoch i < g.batches_per_epoch := npPos_lt h1 h2
  have hp1 : npPos g.batches_per_epoch i < g.sample_indices.length := by
    rw [hsiL]; exact hplt
  have hsrow : g.sample_indices[npPos g.batches_per_epoch i]?
      = some g.sample_indices[npPos g.batches_per_epoch i] := List.getElem?_eq_getElem hp1
  set srow := g.sample_indices[npPos g.batches_per_epoch i] with hsrowdef
  have hsiIdx : npIndex g.sample_indices i = some srow := by
    rw [npIndex_eq_getElem?, hsiL]; exact hsrow
  obtain ⟨hsrowlen, hsrowvals⟩ := hsiR srow (List.getElem?_mem hsrow)
  have hp2 : npPos g.batches_per_epoch i < g.sequence_indices.length := by
    rw [← hf2.length_eq, hsiL]; exact hplt
  have hqmat : g.sequence_indices[npPos g.batches_per_epoch i]?
      = some g.sequence_indices[npPos g.batches_per_epoch i] := List.getElem?_eq_getElem hp2
  set qmat := g.sequence_indices[npPos g.batches_per_epoch i] with hqmatdef
  have hqiIdx : npIndex g.sequence_indices i = some qmat := by
    rw [npIndex_eq_getElem?, hf2.length_eq.symm.trans hsiL]
    exact hqmat
  have hrowF : List.Forall₂ (fun s keys => keys.length = g.subsample_length ∧
      keys.Nodup ∧ ∀ q ∈ keys, q < g.sample_lengths.getD s 0) srow qmat :=
    forall₂_getElem? hf2 hsrow hqmat
  have key : ∀ idx ∈ List.range g.batch_size, ∃ grp,
      (do
        let s ← srow[idx]?
        let archive ← g.samples[s]?
        let keys ← qmat[idx]?
        optMap (fun j => do
            let q ← keys[j]?
            let sequence ← archive[q]?
            let offset ← g.augment_offset_fn sequence.length i idx j
            npBroadcastRow g.sequence_length 0
              (pySlice sequence offset (offset + (g.sequence_length : Int))))
          (List.range g.subsample_length)) = some grp ∧
      grp.length = g.subsample_length ∧ ∀ row ∈ grp, row.length = g.sequence_length := by
    intro idx hidxmem
    have hidx : idx < g.batch_size := List.mem_range.1 hidxmem
    have hidxs : idx < srow.length := by rw [hsrowlen]; exact hidx
    have hs : srow[idx]? = some srow[idx] := List.getElem?_eq_getElem hidxs
    set s := srow[idx] with hsdef
    have hidxq : idx < qmat.length := by rw [← hrowF.length_eq]; exact hidxs
    have hk : qmat[idx]? = some qmat[idx] := List.getElem?_eq_getElem hidxq
    set keys := qmat[idx] with hkeysdef
    obtain ⟨hkeyslen, hkeysnd, hkeysbound⟩ :=
      forall₂_getElem? hrowF hs hk
    have hsn : s < g.num_samples := hsrowvals s (List.getElem?_mem hs)
    have hslt : s < g.samples.length := by omega
    have harch : g.samples[s]? = some g.samples[s] := List.getElem?_eq_getElem hslt
    set archive := g.samples[s] with harchdef
    have hsltl : s < g.sample_lengths.length := by rw [hlens.length_eq]; exact hslt
    have hpair : 0 < g.sample_lengths[s] ∧ g.sample_lengths[s] ≤ archive.length ∧
        g.subsample_length ≤ g.sample_lengths[s] :=
      forall₂_getElem? hlens (List.getElem?_eq_getElem hsltl) harch
    have keyInner : ∀ j ∈ List.range g.subsample_length, ∃ row,
        (do
          let q ← keys[j]?
          let sequence ← archive[q]?
          let offset ← g.augment_offset_fn sequence.length i idx j
          npBroadcastRow g.sequence_length 0
            (pySlice sequence offset (offset + (g.sequence_length : Int)))) = some row ∧
        row.length = g.sequence_length := by
      intro j hjmem
      have hj : j < g.subsample_length := List.mem_range.1 hjmem
      have hjk : j < keys.length := by rw [hkeyslen]; exact hj
      have hq : keys[j]? = some keys[j] := List.getElem?_eq_getElem hjk
      set q := keys[j] with hqdef
      have hql : q < archive.length := by
        have := hkeysbound q (List.getElem?_mem hq)
        rw [getD_eq_of_lt hsltl] at this
        omega
      have hseqq : archive[q]? = some archive[q] := List.getElem?_eq_getElem hql
      set sequence := archive[q] with hseqdef
      have hWL : g.sequence_length ≤ sequence.length :=
        hseq archive (List.getElem?_mem harch) sequence (List.getElem?_mem hseqq)
      obtain ⟨o, ho, hge, hle⟩ := samInv_offset h h1 h2 hidx hj hWL
      have hclip : (pySlice sequence o (o + (g.sequence_length : Int))).length
          = g.sequence_length :=
        pySlice_length sequence o g.sequence_length hge (by omega)
      refine ⟨pySlice sequence o (o + (g.sequence_length : Int)), ?_, hclip⟩
      simp only [Option.bind_eq_bind, hq, Option.some_bind, hseqq, ho]
      exact npBroadcastRow_of_length hclip
    obtain ⟨grp, hgrp⟩ := optMap_isSome
      (fun j => do
        let q ← keys[j]?
        let sequence ← archive[q]?
        let offset ← g.augment_offset_fn sequence.length i idx j
        npBroadcastRow g.sequence_length 0
          (pySlice sequence offset (offset + (g.sequence_length : Int))))
      (List.range g.subsample_length)
      (fun j hjmem => by
        simp only []
        obtain ⟨row, hrow, _⟩ := keyInner j hjmem
        rw [hrow]; rfl)
    refine ⟨grp, ?_, ?_, ?_⟩
    · simp only [Option.bind_eq_bind, hs, Option.some_bind, harch, hk]
      exact hgrp
    · rw [((optMap_some_forall₂ _ _ _).1 hgrp).length_eq.symm, List.length_range]
    · intro row hrowmem
      obtain ⟨j, hjmem, hfeq⟩ :=
        forall₂_mem_right ((optMap_some_forall₂ _ _ _).1 hgrp) row hrowmem
      obtain ⟨row2, hrow2, hlen2⟩ := keyInner j hjmem
      rw [hfeq] at hrow2
      cases hrow2
      exact hlen2
  obtain ⟨b, hb⟩ := optMap_isSome
    (fun idx => do
      let s ← srow[idx]?
      let archive ← g.samples[s]?
      let keys ← qmat[idx]?
      optMap (fun j => do
          let q ← keys[j]?
          let sequence ← archive[q]?
          let offset ← g.augment_offset_fn sequence.length i idx j
          npBroadcastRow g.sequence_length 0
            (pySlice sequence offset (offset + (g.sequence_length : Int))))
        (List.range g.subsample_length))
    (List.range g.batch_size)
    (fun idx hidxmem => by
      simp only []
      obtain ⟨grp, hgrp, _⟩ := key idx hidxmem
      rw [hgrp]; rfl)
  refine ⟨b, ?_, ?_, ?_⟩
  · unfold DnaSampleGenerator.generate_batch
    rw [hsiIdx, hqiIdx]
    simp only [Option.bind_eq_bind, Option.some_bind]
    exact hb
  · rw [((optMap_some_forall₂ _ _ _).1 hb).length_eq.symm, List.length_range]
  · intro grp hgrpmem
    obtain ⟨idx, hidxmem, hfeq⟩ :=
      forall₂_mem_right ((optMap_some_forall₂ _ _ _).1 hb) grp hgrpmem
    obtain ⟨grp2, hgrp2, hrest⟩ := key idx hidxmem
    rw [hfeq] at hgrp2
    cases hgrp2
    exact hrest

theorem samInv_batch_to_kmers {g : DnaSampleGenerator} (h : SampleInv g)
    {b : List (List (List Nat))}
    (hb : ∀ grp ∈ b, grp.length = g.subsample_length ∧
      ∀ row ∈ grp, row.length = g.sequence_length) :
    ∃ out, g.batch_to_kmersO b = some out := by
  apply optMap_isSome
  intro grp hgrp
  obtain ⟨out, hout, _, _⟩ :=
    batchToKmersAux_spec h.1.2.2.2.2.1 h.1.2.2.2.2.2.1 grp (hb grp hgrp).2
  rw [hout]
  rfl

theorem samInv_getItem_isSome {g : DnaSampleGenerator} (h : SampleInv g) {i : Int}
    (h1 : -(g.batches_per_epoch : Int) ≤ i) (h2 : i < g.batches_per_epoch) :
    (g.getItem i).isSome := by
  obtain ⟨b, hgb, hblen, hbrows⟩ := samInv_generate_batch h h1 h2
  obtain ⟨out, hout⟩ := samInv_batch_to_kmers h hbrows
  have hsi : ∃ srow, npIndex g.sample_indices i = some srow := by
    rw [npIndex_eq_getElem?, h.2.1.1]
    exact ⟨_, List.getElem?_eq_getElem (by rw [h.2.1.1]; exact npPos_lt h1 h2)⟩
  obtain ⟨srow, hsrowIdx⟩ := hsi
  unfold DnaSampleGenerator.getItem
  rw [hgb]
  simp only [Option.some_bind]
  unfold DnaSampleGenerator.post_process_batch
  cases hl : g.labels with
  | none => rw [hout]; rfl
  | some lt =>
    cases lt with
    | SampleIds =>
      rw [hout]
      simp only [Option.bind_eq_bind, Option.some_bind]
      rw [hsrowIdx]
      rfl
    | OneMer => rw [hout]; rfl
    | KMer => rw [hout]; rfl

theorem sam_getItem_none {g : DnaSampleGenerator}
    (hL : g.sample_indices.length = g.batches_per_epoch) {i : Int}
    (h : ¬(-(g.batches_per_epoch : Int) ≤ i ∧ i < g.batches_per_epoch)) :
    g.getItem i = none := by
  have hnone : npIndex g.sample_indices i = none :=
    npIndex_eq_none_of (by rw [hL]; exact h)
  unfold DnaSampleGenerator.getItem DnaSampleGenerator.generate_batch
  rw [hnone]
  rfl

theorem rng0_wf : rng0.Wf := fun _ => ⟨le_refl 0, zero_lt_one⟩

theorem gSam_init : DnaSampleGenerator.init [[[0, 0], [1, 1]]] 2 2 1 1 1 false false none rng0
    = some gSam := by with_unfolding_all rfl

/-! ## The claims -/

/-- C1 (counterexample): the code's k-mer encoder is `np.convolve`, which
flips the kernel: on the window `[1, 0]` with `k = 2` it yields
`1·5^1 + 0·5^0 = 5`, not the claimed `1·5^0 + 0·5^1 = 1`. -/
theorem claim1_counterexample :
    toKmersFn 2 [1, 0] = [5] ∧ kmerClaimEncode 2 [1, 0] = [1] ∧
      toKmersFn 2 [1, 0] ≠ kmerClaimEncode 2 [1, 0] := by
  refine ⟨by decide, by decide, by decide⟩

/-- C1 (amended): for every `k ≥ 2` and window of base codes in `[0,5)` with
`k ≤ |window|`, the encoder maps the `j`-th length-`k` slice to the dot
product of that slice with the REVERSED positional weight vector
`[5^(k-1), ..., 5^0]` (np.convolve flips the kernel, so weight `5^(k-1-t)`
lands on the `t`-th base of the slice), and every output lies in `[0, 5^k)`. -/
theorem claim1_kmer_reversed_dot_product :
    ∀ (k : Nat) (x : List Nat), 2 ≤ k → k ≤ x.length → (∀ c ∈ x, c < 5) →
      (toKmersFn k x).length = x.length - k + 1 ∧
      ∀ j, j < x.length - k + 1 →
        (toKmersFn k x)[j]? = some (dotProd ((x.drop j).take k) ((kmer_kernel k).reverse)) ∧
        dotProd ((x.drop j).take k) ((kmer_kernel k).reverse) < 5 ^ k := by
  intro k x hk2 hkx hdig
  refine ⟨toKmersFn_length x (by omega) hkx, ?_⟩
  intro j hj
  have hslicelen : ((x.drop j).take k).length = k := by
    rw [List.length_take, List.length_drop]
    omega
  have hslicedig : ∀ c ∈ (x.drop j).take k, c < 5 := by
    intro c hc
    exact hdig c (List.mem_of_mem_drop (List.mem_of_mem_take hc))
  refine ⟨toKmersFn_getElem? x hk2 hkx hj, ?_⟩
  rw [kmer_kernel_reverse]
  have := dotProd_pows_lt ((x.drop j).take k) hslicedig
  rw [hslicelen] at this
  exact this

/-- C1 (witness): the amended statement at `k = 2`, window `[1, 0, 4]`. -/
theorem claim1_witness :
    (toKmersFn 2 [1, 0, 4]).length = [1, 0, 4].length - 2 + 1 ∧
    ∀ j, j < [1, 0, 4].length - 2 + 1 →
      (toKmersFn 2 [1, 0, 4])[j]?
          = some (dotProd (([1, 0, 4].drop j).take 2) ((kmer_kernel 2).reverse)) ∧
      dotProd (([1, 0, 4].drop j).take 2) ((kmer_kernel 2).reverse) < 5 ^ 2 :=
  claim1_kmer_reversed_dot_product 2 [1, 0, 4] (by decide) (by decide) (by decide)

/-- C2: two generators (sequence or sample flavour) built over the same
archives and configuration from identically seeded RNGs produce bit-identical
batch streams over the first `N` epochs, for every `N`. -/
theorem claim2_determinism :
    ∀ (samples : List Archive) (W k bs bpe : Nat) (aug bal : Bool)
      (labels : Option DnaLabelType) (r1 r2 : RNG) (N : Nat), r1 = r2 →
      DnaSequenceGenerator.runEpochs
          (DnaSequenceGenerator.init samples W k bs bpe aug bal labels r1) N
        = DnaSequenceGenerator.runEpochs
          (DnaSequenceGenerator.init samples W k bs bpe aug bal labels r2) N ∧
      ∀ sub : Nat,
        (DnaSampleGenerator.init samples sub W k bs bpe aug bal labels r1).map
            (fun g => g.runEpochs N)
          = (DnaSampleGenerator.init samples sub W k bs bpe aug bal labels r2).map
            (fun g => g.runEpochs N) := by
  intro samples W k bs bpe aug bal labels r1 r2 N h
  subst h
  exact ⟨rfl, fun _ => rfl⟩

/-- C2 (witness): the determinism statement at a concrete configuration and
seed. -/
theorem claim2_witness :
    DnaSequenceGenerator.runEpochs
        (DnaSequenceGenerator.init [[[0, 0]]] 2 1 1 1 false false none rng0) 3
      = DnaSequenceGenerator.runEpochs
        (DnaSequenceGenerator.init [[[0, 0]]] 2 1 1 1 false false none rng0) 3 ∧
    ∀ sub : Nat,
      (DnaSampleGenerator.init [[[0, 0]]] sub 2 1 1 1 false false none rng0).map
          (fun g => g.runEpochs 3)
        = (DnaSampleGenerator.init [[[0, 0]]] sub 2 1 1 1 false false none rng0).map
          (fun g => g.runEpochs 3) :=
  claim2_determinism [[[0, 0]]] 2 1 1 1 false false none rng0 rng0 3 rfl

/-- C3: `__getitem__` is a pure read of the materialized index tables: it
leaves the generator state (tables and RNG included) unchanged, so a second
call with the same batch index returns bit-identical output, for both
generator flavours. -/
theorem claim3_get_batch_idempotent :
    ∀ (g : DnaSequenceGenerator) (g2 : DnaSampleGenerator) (i : Int),
      (g.getItemS i).2 = g ∧
      ((g.getItemS i).2.getItemS i).1 = (g.getItemS i).1 ∧
      (g2.getItemS i).2 = g2 ∧
      ((g2.getItemS i).2.getItemS i).1 = (g2.getItemS i).1 :=
  fun _ _ _ => ⟨rfl, rfl, rfl, rfl⟩

/-- C4: with augmentation on, the offset used for a slot whose stored fraction
is `u ∈ [0,1)` equals `⌊u · (len - W + 1)⌋` and lies in `[0, len - W]`; with
augmentation off the offset is `0` for every slot. -/
theorem claim4_augment_offset :
    (∀ (g : DnaSequenceGenerator) (L : Nat) (i : Int) (idx : Nat) (u : ℚ),
      g.augment = true → g.sequence_length ≤ L →
      (npIndex g.augment_offsets i).bind (fun row => row[idx]?) = some u →
      0 ≤ u → u < 1 →
      g.augment_offset_fn L i idx
          = some (⌊u * ((L : ℚ) - (g.sequence_length : ℚ) + 1)⌋) ∧
        0 ≤ ⌊u * ((L : ℚ) - (g.sequence_length : ℚ) + 1)⌋ ∧
        ⌊u * ((L : ℚ) - (g.sequence_length : ℚ) + 1)⌋
          ≤ (L : Int) - (g.sequence_length : Int)) ∧
    (∀ (g : DnaSequenceGenerator) (L : Nat) (i : Int) (idx : Nat),
      g.augment = false → g.augment_offset_fn L i idx = some 0) := by
  constructor
  · intro g L i idx u ha hWL hlookup h0 h1
    obtain ⟨hge, hle, heq⟩ := offsetVal_bounds h0 h1 hWL
    refine ⟨?_, heq ▸ hge, heq ▸ hle⟩
    unfold DnaSequenceGenerator.augment_offset_fn
    rw [if_pos ha]
    unfold DnaSequenceGenerator.compute_augmented_offset
    rw [hlookup, Option.map_some', heq]
  · intro g L i idx ha
    unfold DnaSequenceGenerator.augment_offset_fn
    rw [if_neg (by rw [ha]; exact Bool.false_ne_true)]

/-- C4 (witness): the offset statement at the concrete generator `gAug`
(augment on, stored fraction 0, fetched length 3) and at `g0` (augment
off). -/
theorem claim4_witness :
    (gAug.augment_offset_fn 3 0 0
        = some (⌊(0 : ℚ) * ((3 : ℚ) - (gAug.sequence_length : ℚ) + 1)⌋) ∧
      0 ≤ ⌊(0 : ℚ) * ((3 : ℚ) - (gAug.sequence_length : ℚ) + 1)⌋ ∧
      ⌊(0 : ℚ) * ((3 : ℚ) - (gAug.sequence_length : ℚ) + 1)⌋
        ≤ (3 : Int) - (gAug.sequence_length : Int)) ∧
    g0.augment_offset_fn 3 0 0 = some 0 :=
  ⟨claim4_augment_offset.1 gAug 3 0 0 0 rfl (by decide) rfl (le_refl 0) zero_lt_one,
    claim4_augment_offset.2 g0 3 0 0 rfl⟩

theorem getD_replicate_le {n m s : Nat} : (List.replicate n m).getD s 0 ≤ m := by
  rw [List.getD_eq_getElem?_getD]
  cases h : (List.replicate n m)[s]? with
  | none => exact Nat.zero_le m
  | some v =>
    have := List.eq_of_mem_replicate (List.getElem?_mem h)
    rw [this]
    exact le_refl m

/-- C5: with `balance=true`, in every reachable state of either generator: all
effective archive lengths equal the minimum archive length, and every stored
sequence key (every slot of every batch of the epoch's table, in both
single-sequence and group mode) is strictly below that minimum. -/
theorem claim5_balance_clamp :
    (∀ g : DnaSequenceGenerator, SeqReachable g → g.balance = true →
      (∀ l ∈ g.sample_lengths, l = natMin (g.samples.map List.length)) ∧
      (∀ row ∈ g.sequence_indices, ∀ q ∈ row, q < natMin (g.samples.map List.length))) ∧
    (∀ g : DnaSampleGenerator, SampleReachable g → g.balance = true →
      (∀ l ∈ g.sample_lengths, l = natMin (g.samples.map List.length)) ∧
      (∀ mat ∈ g.sequence_indices, ∀ keys ∈ mat, ∀ q ∈ keys,
        q < natMin (g.samples.map List.length))) := by
  constructor
  · intro g hreach hbal
    obtain ⟨hcfg, htab, hbalpart⟩ := seqReachable_inv hreach
    have hrepl := hbalpart hbal
    constructor
    · intro l hl
      rw [hrepl] at hl
      exact List.eq_of_mem_replicate hl
    · intro row hrow q hq
      obtain ⟨srow, hsrowmem, hF⟩ := forall₂_mem_right htab.2.2.1 row hrow
      obtain ⟨s, _, hqlt⟩ := forall₂_mem_right hF q hq
      have : g.sample_lengths.getD s 0 ≤ natMin (g.samples.map List.length) := by
        rw [hrepl]
        exact getD_replicate_le
      omega
  · intro g hreach hbal
    obtain ⟨hcfg, htab, hbalpart⟩ := samReachable_inv hreach
    have hrepl := hbalpart hbal
    constructor
    · intro l hl
      rw [hrepl] at hl
      exact List.eq_of_mem_replicate hl
    · intro mat hmat keys hkeys q hq
      obtain ⟨srow, hsrowmem, hF⟩ := forall₂_mem_right htab.2.2.1 mat hmat
      obtain ⟨s, _, hslot⟩ := forall₂_mem_right hF keys hkeys
      have hqlt := hslot.2.2 q hq
      have : g.sample_lengths.getD s 0 ≤ natMin (g.samples.map List.length) := by
        rw [hrepl]
        exact getD_replicate_le
      omega

/-- C5 (witness): the balanced clamp at the concrete balanced generator
`gBal`. -/
theorem claim5_witness :
    (∀ l ∈ gBal.sample_lengths, l = natMin (gBal.samples.map List.length)) ∧
    (∀ row ∈ gBal.sequence_indices, ∀ q ∈ row, q < natMin (gBal.samples.map List.length)) :=
  claim5_balance_clamp.1 gBal
    (SeqReachable.base [[[0, 0]], [[1, 1], [2, 2]]] 2 1 1 1 false true none rng0
      (by decide) (by decide) (by decide) (by decide) (by decide) rng0_wf)
    rfl

/-- C6: in every reachable state of the subsample generator, every slot of the
sequence-key table holds exactly `subsample_length` pairwise-distinct keys,
each within the effective index range of the slot's archive. -/
theorem claim6_group_distinct :
    ∀ g : DnaSampleGenerator, SampleReachable g →
      (∀ mat ∈ g.sequence_indices, ∀ keys ∈ mat,
        keys.length = g.subsample_length ∧ keys.Nodup) ∧
      List.Forall₂ (List.Forall₂ (fun s keys => ∀ q ∈ keys,
        q < g.sample_lengths.getD s 0)) g.sample_indices g.sequence_indices := by
  intro g hreach
  obtain ⟨hcfg, htab, _⟩ := samReachable_inv hreach
  constructor
  · intro mat hmat keys hkeys
    obtain ⟨srow, _, hF⟩ := forall₂_mem_right htab.2.2.1 mat hmat
    obtain ⟨s, _, hslot⟩ := forall₂_mem_right hF keys hkeys
    exact ⟨hslot.1, hslot.2.1⟩
  · exact htab.2.2.1.imp (fun srow mat h => h.imp (fun s keys hs => hs.2.2))

/-- C6 (witness): group distinctness at the concrete constructed state
`gSam`. -/
theorem claim6_witness :
    (∀ mat ∈ gSam.sequence_indices, ∀ keys ∈ mat,
      keys.length = gSam.subsample_length ∧ keys.Nodup) ∧
    List.Forall₂ (List.Forall₂ (fun s keys => ∀ q ∈ keys,
      q < gSam.sample_lengths.getD s 0)) gSam.sample_indices gSam.sequence_indices :=
  claim6_group_distinct gSam
    (SampleReachable.base [[[0, 0], [1, 1]]] 2 2 1 1 1 false false none rng0 gSam
      (by decide) (by decide) (by decide) (by decide) (by decide) (by decide) rng0_wf
      gSam_init)

/-- C7 (counterexample): `g0` has `batches_per_epoch = 1`, and `-1` is outside
`[0, 1)`; yet `get_batch(-1)` succeeds (numpy wraps negative indices to the
end of the first axis) instead of failing with an index error. -/
theorem claim7_counterexample :
    g0.batches_per_epoch = 1 ∧ g0.getItem (-1) = some (SeqBatchOut.plain [[0, 0]]) :=
  ⟨rfl, by with_unfolding_all rfl⟩

/-- C7 (amended): in every reachable state, `get_batch(i)` succeeds exactly
when `-batches_per_epoch ≤ i < batches_per_epoch` — Python/numpy negative
indices wrap to the end, and only indices outside that symmetric range raise
`IndexError`. -/
theorem claim7_index_range :
    ∀ g : DnaSequenceGenerator, SeqReachable g → ∀ i : Int,
      (g.getItem i).isSome = true ↔
        (-(g.batches_per_epoch : Int) ≤ i ∧ i < g.batches_per_epoch) := by
  intro g hreach i
  have hinv := seqReachable_inv hreach
  constructor
  · intro hsome
    by_contra hout
    rw [seq_getItem_none hinv.2.1.1 hout] at hsome
    cases hsome
  · intro hin
    exact seqInv_getItem_isSome hinv hin.1 hin.2

/-- C7 (witness): the range characterisation at `g0` and index `-1`. -/
theorem claim7_witness :
    (g0.getItem (-1)).isSome = true ↔
      (-(g0.batches_per_epoch : Int) ≤ (-1 : Int) ∧
        (-1 : Int) < (g0.batches_per_epoch : Int)) :=
  claim7_index_range g0
    (SeqReachable.base [[[0, 0]]] 2 1 1 1 false false none rng0
      (by decide) (by decide) (by decide) (by decide) (by decide) rng0_wf)
    (-1)

/-- C8: `random_subsamples` crashes for two of the four flag combinations —
with `augment=False`, `augments` is `np.zeros_like(result.shape[:-1])`, a 1-D
array of three zeros, so `augments[i,j,k]` raises `IndexError`; with
`balance=True`, `sample_lengths` is replaced by the scalar `np.min(...)`, so
`sample_lengths[i]` raises `IndexError`.  Only `augment=True, balance=False`
returns the dense array the spec describes. -/
theorem claim8_random_subsamples_bug :
    random_subsamples [[[0]]] 1 1 1 false false rng0 = none ∧
    random_subsamples [[[0]]] 1 1 1 true true rng0 = none ∧
    random_subsamples [[[0]]] 1 1 1 true false rng0 = some [[[[0]]]] :=
  ⟨by with_unfolding_all rfl, by with_unfolding_all rfl, by with_unfolding_all rfl⟩

theorem forall₂_imp_mem {α β : Type} {R S : α → β → Prop} {P : α → Prop} :
    ∀ {a : List α} {b : List β}, List.Forall₂ R a b → (∀ x ∈ a, P x) →
      (∀ x y, P x → R x y → S x y) → List.Forall₂ S a b := by
  intro a b h
  induction h with
  | nil => intro _ _; exact List.Forall₂.nil
  | cons hxy htail ih =>
    intro hP himp
    exact List.Forall₂.cons
      (himp _ _ (hP _ (List.mem_cons_self _ _)) hxy)
      (ih (fun x hx => hP x (List.mem_cons_of_mem _ hx)) himp)

/-- C9: output length of the encoder is `W - k + 1` for `1 ≤ k ≤ W` (so
single-mode feature batches are `(batch_size, W-k+1)` and group-mode batches
`(batch_size, group_size, W-k+1)`); `k = 1` is the identity; an all-zero
window encodes to all zeros. -/
theorem claim9_kmer_encoder_shapes :
    (∀ (k : Nat) (x : List Nat), 1 ≤ k → k ≤ x.length →
      (toKmersFn k x).length = x.length - k + 1 ∧
      ((∀ c ∈ x, c = 0) → ∀ y ∈ toKmersFn k x, y = 0)) ∧
    (∀ x : List Nat, toKmersFn 1 x = x) ∧
    (∀ (g : DnaSequenceGenerator) (batch : List (List Nat)),
      1 ≤ g.kmer → g.kmer ≤ g.sequence_length →
      (∀ row ∈ batch, row.length = g.sequence_length) →
      ∃ out, g.batch_to_kmersO batch = some out ∧ out.length = batch.length ∧
        ∀ row ∈ out, row.length = g.sequence_length - g.kmer + 1) ∧
    (∀ (g : DnaSampleGenerator) (batch : List (List (List Nat))),
      1 ≤ g.kmer → g.kmer ≤ g.sequence_length →
      (∀ grp ∈ batch, ∀ row ∈ grp, row.length = g.sequence_length) →
      ∃ out, g.batch_to_kmersO batch = some out ∧ out.length = batch.length ∧
        List.Forall₂ (fun grp ogrp => ogrp.length = grp.length ∧
          ∀ row ∈ ogrp, row.length = g.sequence_length - g.kmer + 1) batch out) := by
  refine ⟨?_, toKmersFn_one, ?_, ?_⟩
  · intro k x h1 h2
    exact ⟨toKmersFn_length x h1 h2, toKmersFn_zero x⟩
  · intro g batch h1 h2 hrows
    exact batchToKmersAux_spec h1 h2 batch hrows
  · intro g batch h1 h2 hrows
    obtain ⟨out, hout⟩ := optMap_isSome
      (fun grp => batchToKmersAux g.sequence_length g.kmer grp)
      batch (fun grp hgrp => by
        simp only []
        obtain ⟨o, ho, _, _⟩ := batchToKmersAux_spec h1 h2 grp (hrows grp hgrp)
        rw [ho]; rfl)
    refine ⟨out, hout, ((optMap_some_forall₂ _ _ _).1 hout).length_eq.symm, ?_⟩
    apply forall₂_imp_mem ((optMap_some_forall₂ _ _ _).1 hout) hrows
    intro grp ogrp hP hsome
    obtain ⟨o, ho, holen, horows⟩ := batchToKmersAux_spec h1 h2 grp hP
    rw [ho] at hsome
    cases hsome
    exact ⟨holen, horows⟩

/-- C9 (witness): the encoder shape and zero statements at `k = 2` on the
all-zero window `[0, 0, 0]`. -/
theorem claim9_witness :
    (toKmersFn 2 [0, 0, 0]).length = [0, 0, 0].length - 2 + 1 ∧
    ((∀ c ∈ ([0, 0, 0] : List Nat), c = 0) → ∀ y ∈ toKmersFn 2 [0, 0, 0], y = 0) :=
  claim9_kmer_encoder_shapes.1 2 [0, 0, 0] (by decide) (by decide)

theorem samShuffle_fields {g g2 : DnaSampleGenerator} (h : g.shuffle = some g2) :
    g2.batches_per_epoch = g.batches_per_epoch := by
  rw [samShuffle_eq] at h
  cases hqi : (samDraw2 g).1 with
  | none => rw [hqi] at h; cases h
  | some qi => rw [hqi] at h; cases h; rfl

/-- C10: the constructor itself builds the first epoch's tables (so `get_batch`
is servable on any valid index immediately, with no prior `on_epoch_end`), and
in every reachable state the index tables have shape
`(batches_per_epoch, batch_size)`, with a trailing `subsample_length`
dimension on the group-mode sequence keys. -/
theorem claim10_constructor_tables :
    (∀ g : DnaSequenceGenerator, SeqReachable g →
      g.sample_indices.length = g.batches_per_epoch ∧
      (∀ row ∈ g.sample_indices, row.length = g.batch_size) ∧
      g.sequence_indices.length = g.batches_per_epoch ∧
      (∀ row ∈ g.sequence_indices, row.length = g.batch_size)) ∧
    (∀ (samples : List Archive) (W k bs bpe : Nat) (aug bal : Bool)
        (labels : Option DnaLabelType) (r : RNG),
      samples ≠ [] → (∀ a ∈ samples, a ≠ []) →
      (∀ a ∈ samples, ∀ s ∈ a, W ≤ s.length) → 1 ≤ k → k ≤ W → r.Wf →
      ∀ i : Int, 0 ≤ i → i < (bpe : Int) →
        ((DnaSequenceGenerator.init samples W k bs bpe aug bal labels r).getItem i).isSome) ∧
    (∀ g : DnaSampleGenerator, SampleReachable g →
      g.sample_indices.length = g.batches_per_epoch ∧
      (∀ row ∈ g.sample_indices, row.length = g.batch_size) ∧
      g.sequence_indices.length = g.batches_per_epoch ∧
      (∀ mat ∈ g.sequence_indices, mat.length = g.batch_size ∧
        ∀ keys ∈ mat, keys.length = g.subsample_length)) ∧
    (∀ (samples : List Archive) (sub W k bs bpe : Nat) (aug bal : Bool)
        (labels : Option DnaLabelType) (r : RNG),
      samples ≠ [] → (∀ a ∈ samples, a ≠ []) →
      (∀ a ∈ samples, ∀ s ∈ a, W ≤ s.length) → (∀ a ∈ samples, sub ≤ a.length) →
      1 ≤ k → k ≤ W → r.Wf →
      (DnaSampleGenerator.init samples sub W k bs bpe aug bal labels r).isSome ∧
      ∀ g2, DnaSampleGenerator.init samples sub W k bs bpe aug bal labels r = some g2 →
        ∀ i : Int, 0 ≤ i → i < (bpe : Int) → (g2.getItem i).isSome) := by
  refine ⟨?_, ?_, ?_, ?_⟩
  · intro g hreach
    obtain ⟨hcfg, ⟨hsiL, hsiR, hF, _⟩, _⟩ := seqReachable_inv hreach
    refine ⟨hsiL, fun row hrow => (hsiR row hrow).1, ?_, ?_⟩
    · rw [← hF.length_eq]
      exact hsiL
    · intro row hrow
      obtain ⟨srow, hsrowmem, hrowF⟩ := forall₂_mem_right hF row hrow
      rw [← hrowF.length_eq]
      exact (hsiR srow hsrowmem).1
  · intro samples W k bs bpe aug bal labels r h1 h2 h3 h4 h5 h6 i hi0 hibpe
    have hinv := init_inv samples W k bs bpe aug bal labels r h1 h2 h3 h4 h5 h6
    have hbpe : (DnaSequenceGenerator.init samples W k bs bpe aug bal labels r).batches_per_epoch
        = bpe := rfl
    apply seqInv_getItem_isSome hinv
    · rw [hbpe]; omega
    · rw [hbpe]; exact hibpe
  · intro g hreach
    obtain ⟨hcfg, ⟨hsiL, hsiR, hF, _⟩, _⟩ := samReachable_inv hreach
    refine ⟨hsiL, fun row hrow => (hsiR row hrow).1, ?_, ?_⟩
    · rw [← hF.length_eq]
      exact hsiL
    · intro mat hmat
      obtain ⟨srow, hsrowmem, hrowF⟩ := forall₂_mem_right hF mat hmat
      refine ⟨?_, ?_⟩
      · rw [← hrowF.length_eq]
        exact (hsiR srow hsrowmem).1
      · intro keys hkeys
        obtain ⟨s, _, hslot⟩ := forall₂_mem_right hrowF keys hkeys
        exact hslot.1
  · intro samples sub W k bs bpe aug bal labels r h1 h2 h3 h4 h5 h6 h7
    refine ⟨samInit_isSome samples sub W k bs bpe aug bal labels r h1 h2 h3 h4 h5 h6 h7, ?_⟩
    intro g2 hg2 i hi0 hibpe
    have hinv := samInit_inv samples sub W k bs bpe aug bal labels r h1 h2 h3 h4 h5 h6 h7 g2 hg2
    have hbpe : g2.batches_per_epoch = bpe := samShuffle_fields hg2
    apply samInv_getItem_isSome hinv
    · rw [hbpe]; omega
    · rw [hbpe]; exact hibpe

/-- C10 (witness): table shapes at the freshly constructed `g0` and immediate
servability of its batch 0. -/
theorem claim10_witness :
    (g0.sample_indices.length = g0.batches_per_epoch ∧
      (∀ row ∈ g0.sample_indices, row.length = g0.batch_size) ∧
      g0.sequence_indices.length = g0.batches_per_epoch ∧
      (∀ row ∈ g0.sequence_indices, row.length = g0.batch_size)) ∧
    ((DnaSequenceGenerator.init [[[0, 0]]] 2 1 1 1 false false none rng0).getItem 0).isSome :=
  ⟨claim10_constructor_tables.1 g0
      (SeqReachable.base [[[0, 0]]] 2 1 1 1 false false none rng0
        (by decide) (by decide) (by decide) (by decide) (by decide) rng0_wf),
    claim10_constructor_tables.2.1 [[[0, 0]]] 2 1 1 1 false false none rng0
      (by decide) (by decide) (by decide) (by decide) (by decide) rng0_wf 0
      (le_refl 0) (by decide)⟩

